import Mathlib

/-!
# Account lifecycle of `server/src/auth/lifecycle.go`

A shallow embedding of the five operations of the `Authentication` service
(`Register`, `Login`, `ChangePassword`, `ReRequestVerification`,
`ValidateEmailVerificationKey`) as explicit state-passing functions over a
`World` (the record store, the mail queue and a log of collaborator calls),
followed by theorems about them.

The collaborators whose code is not part of `lifecycle.go` are handled as follows.

* `bcrypt` and `uuid.NewV4` are external libraries: they are fields of `Env`, so
  every theorem holds for every behaviour they may have.
* The record store (`db`) and the mail queue (`mailworker`) are modelled from the
  contracts of section 6 of the specification.  Their failures are driven by
  oracles in `Env`, indexed by the number of collaborator calls made so far, so
  that every call may fail or succeed independently.
-/

namespace Auth

/-! ## Errors -/

/-- The `error` values that can leave this module.  `ErrNotFound` is `db.ErrNotFound`;
`ErrUserNotFound` and `ErrUserNotVerified` are the two sentinels declared in
`lifecycle.go`; the remaining constructors wrap the error of one collaborator. -/
inductive Error where
  | ErrNotFound
  | ErrUserNotFound
  | ErrUserNotVerified
  | bcrypt (msg : String)
  | uuid (msg : String)
  | mailworker (msg : String)
  | db (msg : String)
  deriving DecidableEq, Repr

deriving instance DecidableEq for Except

/-! ## Data model -/

/-- Modelled from the spec: `db.UserModel`, the user record of section 3
(`id`, `email`, `name`, `passwordHash`, nullable `verifyKey`, nullable `verifiedAt`).
Timestamps are natural numbers. -/
structure UserModel where
  ID : String
  Email : String
  Name : String
  Pass : String
  VerifyKey : Option String
  VerifiedAt : Option Nat
  deriving DecidableEq, Repr

/-- Modelled from the spec: the equality filters of the record store that the
module uses, `db.User.Email.Equals`, `db.User.ID.Equals`, `db.User.VerifyKey.Equals`. -/
inductive Filter where
  | EmailEquals (v : String)
  | IDEquals (v : String)
  | VerifyKeyEquals (v : String)
  deriving DecidableEq, Repr

/-- Whether a record satisfies a filter. -/
def Filter.holds : Filter → UserModel → Bool
  | .EmailEquals v, u => decide (u.Email = v)
  | .IDEquals v, u => decide (u.ID = v)
  | .VerifyKeyEquals v, u => decide (u.VerifyKey = some v)

/-- Modelled from the spec: the field assignments of the record store that the
module uses in updates, `db.User.Pass.Set`, `db.User.VerifyKey.Set`,
`db.User.VerifiedAt.Set`. -/
inductive SetParam where
  | PassSet (v : String)
  | VerifyKeySet (v : String)
  | VerifiedAtSet (t : Nat)
  deriving DecidableEq, Repr

/-- The record after one field assignment. -/
def SetParam.apply : SetParam → UserModel → UserModel
  | .PassSet v, u => { u with Pass := v }
  | .VerifyKeySet v, u => { u with VerifyKey := some v }
  | .VerifiedAtSet t, u => { u with VerifiedAt := some t }

/-- Modelled from the spec: `findOne(filter) -> Record | NotFound` on the stored
records; `none` stands for not-found.  The first matching record is the one found. -/
def findFirst (f : Filter) (users : List UserModel) : Option UserModel :=
  users.find? f.holds

/-- Modelled from the spec: the atomic find-and-update of the record store on the
stored records: the first record satisfying the filter is replaced by its updated
version, which is returned with the new contents; `none` stands for not-found. -/
def updateFirst (f : Filter) (s : SetParam) : List UserModel → Option (UserModel × List UserModel)
  | [] => none
  | u :: us =>
    if f.holds u then some (s.apply u, s.apply u :: us)
    else
      match updateFirst f s us with
      | none => none
      | some (r, us1) => some (r, u :: us1)

/-! ## Verification tokens -/

/-- A `uuid.UUID`: sixteen bytes.  Positions past the end of the list read as zero
and every entry is taken modulo 256. -/
structure UUID where
  bytes : List Nat
  deriving DecidableEq, Repr

/-- Two lower-case hexadecimal digits of a byte. -/
def hexByte (b : Nat) : List Char :=
  [Nat.digitChar (b % 256 / 16), Nat.digitChar (b % 16)]

/-- Hexadecimal encoding of the bytes at positions `lo, ..., hi - 1`. -/
def UUID.hex (u : UUID) (lo hi : Nat) : List Char :=
  ((List.range (hi - lo)).map (fun i => hexByte (u.bytes.getD (lo + i) 0))).flatten

/-- The canonical text of a UUID, `xxxxxxxx-xxxx-xxxx-xxxx-xxxxxxxxxxxx`, as produced
by `UUID.String()`. -/
def UUID.String (u : UUID) : String :=
  String.mk (u.hex 0 4 ++ '-' :: u.hex 4 6 ++ '-' :: u.hex 6 8 ++ '-' :: u.hex 8 10
    ++ '-' :: u.hex 10 16)

/-! ## Mail -/

/-- The arguments of one `mailworker.Enqueue` call: recipient name and address,
subject, template id and the `Key` of the template data. -/
structure Mail where
  name : String
  addr : String
  subj : String
  template : String
  Key : String
  deriving DecidableEq, Repr

/-- The conversion `mailreg.TemplateID(s)`. -/
def TemplateID (s : String) : String := s

/-! ## Collaborators and the world -/

/-- The value of `bcrypt.DefaultCost`. -/
def DefaultCost : Nat := 10

/-- The behaviour of the collaborators.  The first argument of every oracle is the
number of collaborator calls made so far: it stands for the randomness, the clock and
the health of the outside world at the moment of the call.

* `GenerateFromPassword tick password cost`: the bcrypt hash, or the library's error.
* `CompareHashAndPassword hash password`: `none` when the password is accepted,
  otherwise the library's error (a mismatch or a malformed hash).
* `NewV4 tick`: a random UUID, or the library's error.
* `enqueueFault tick`: the error of the mail queue, if the enqueue fails.
* `dbFault tick`: the failure of the record store on a write, if it fails for a
  reason other than not-found.
* `newID tick`: the identifier the store assigns to a record created now.
* `Now tick`: the value of `time.Now()`. -/
structure Env where
  GenerateFromPassword : Nat → String → Nat → Except String String
  CompareHashAndPassword : String → String → Option String
  NewV4 : Nat → Except String UUID
  enqueueFault : Nat → Option String
  dbFault : Nat → Option String
  newID : Nat → String
  Now : Nat → Nat

/-- One collaborator call of the module together with whether it succeeded. -/
inductive Call where
  | GenerateFromPassword (ok : Bool)
  | NewV4 (ok : Bool)
  | Enqueue (m : Mail) (ok : Bool)
  | FindOne (f : Filter) (ok : Bool)
  | CreateOne (ok : Bool)
  | Update (f : Filter) (s : SetParam) (ok : Bool)
  deriving DecidableEq, Repr

/-- The state the operations act on: the records of the store, the mails accepted by
the queue (oldest first) and the log of collaborator calls (oldest first). -/
structure World where
  users : List UserModel
  queue : List Mail
  log : List Call
  deriving DecidableEq, Repr

/-- The number of collaborator calls made so far. -/
def World.tick (w : World) : Nat := w.log.length

/-- Append one call to the log. -/
def World.record (w : World) (c : Call) : World :=
  { users := w.users, queue := w.queue, log := w.log ++ [c] }

/-- The call `bcrypt.GenerateFromPassword([]byte(password), cost)`. -/
def GenerateFromPassword (env : Env) (w : World) (password : String) (cost : Nat) :
    Except Error String × World :=
  match env.GenerateFromPassword w.tick password cost with
  | .ok h => (.ok h, w.record (.GenerateFromPassword true))
  | .error m => (.error (.bcrypt m), w.record (.GenerateFromPassword false))

/-- The call `bcrypt.CompareHashAndPassword(hash, password)`; `none` is the nil error. -/
def CompareHashAndPassword (env : Env) (hash password : String) : Option Error :=
  match env.CompareHashAndPassword hash password with
  | none => none
  | some m => some (.bcrypt m)

/-- The call `uuid.NewV4()`. -/
def NewV4 (env : Env) (w : World) : Except Error UUID × World :=
  match env.NewV4 w.tick with
  | .ok k => (.ok k, w.record (.NewV4 true))
  | .error m => (.error (.uuid m), w.record (.NewV4 false))

/-- Modelled from the spec: `mailworker.Enqueue`, the notification dispatcher
`enqueue(recipientName, recipientAddress, subject, templateId, templateData) -> ok | err`
of section 6: an accepted mail joins the queue, a rejected one leaves no trace in it and
its error is returned synchronously. -/
def Enqueue (env : Env) (w : World) (name addr subj template key : String) :
    Option Error × World :=
  let m : Mail := { name := name, addr := addr, subj := subj, template := template, Key := key }
  match env.enqueueFault w.tick with
  | some e => (some (.mailworker e), w.record (.Enqueue m false))
  | none => (none, { users := w.users, queue := w.queue ++ [m], log := w.log ++ [.Enqueue m true] })

/-- Modelled from the spec: `a.db.User.FindOne(filter).Exec(ctx)`, the record store's
`findOne(filter) -> Record | NotFound` of section 6; not-found is `db.ErrNotFound`.
The contract names no other failure of a lookup, so none is modelled; the branch of the
callers for other errors is kept all the same. -/
def FindOne (w : World) (f : Filter) : Except Error UserModel × World :=
  match findFirst f w.users with
  | some u => (.ok u, w.record (.FindOne f true))
  | none => (.error .ErrNotFound, w.record (.FindOne f false))

/-- Modelled from the spec: `a.db.User.CreateOne(email, name, pass, verifyKey).Exec(ctx)`,
the record store's `createOne(fields) -> Record | err` of section 6.  The store assigns
the identifier, leaves `verifiedAt` unset, and refuses a record whose email (or
identifier) is already taken, which is how it guarantees uniqueness. -/
def CreateOne (env : Env) (w : World) (email name pass verifyKey : String) :
    Except Error UserModel × World :=
  match env.dbFault w.tick with
  | some m => (.error (.db m), w.record (.CreateOne false))
  | none =>
    let user : UserModel :=
      { ID := env.newID w.tick, Email := email, Name := name, Pass := pass,
        VerifyKey := some verifyKey, VerifiedAt := none }
    if w.users.any (fun u => decide (u.Email = email) || decide (u.ID = user.ID)) then
      (.error (.db "unique constraint failed"), w.record (.CreateOne false))
    else
      (.ok user, { users := w.users ++ [user], queue := w.queue, log := w.log ++ [.CreateOne true] })

/-- Modelled from the spec: `a.db.User.FindOne(filter).Update(set).Exec(ctx)`, the record
store's atomic `update(filter, fields) -> Record | NotFound | err` of section 6. -/
def Update (env : Env) (w : World) (f : Filter) (s : SetParam) : Except Error UserModel × World :=
  match env.dbFault w.tick with
  | some m => (.error (.db m), w.record (.Update f s false))
  | none =>
    match updateFirst f s w.users with
    | none => (.error .ErrNotFound, w.record (.Update f s false))
    | some (u, us) => (.ok u, { users := us, queue := w.queue, log := w.log ++ [.Update f s true] })

/-! ## The five operations -/

/-- `Authentication.Register`. -/
def Register (env : Env) (w : World) (name identifier authorizer : String) :
    Except Error UserModel × World :=
  match GenerateFromPassword env w authorizer DefaultCost with
  | (.error err, w1) => (.error err, w1)
  | (.ok hash, w1) =>
    match NewV4 env w1 with
    | (.error err, w2) => (.error err, w2)
    | (.ok key, w2) =>
      match Enqueue env w2 name identifier "Please verify your email address"
          (TemplateID "verify") key.String with
      | (some err, w3) => (.error err, w3)
      | (none, w3) =>
        match CreateOne env w3 identifier name hash key.String with
        | (.error err, w4) => (.error err, w4)
        | (.ok user, w4) => (.ok user, w4)

/-- `Authentication.Login`. -/
def Login (env : Env) (w : World) (identifier authorizer : String) :
    Except Error UserModel × World :=
  match FindOne w (.EmailEquals identifier) with
  | (.error err, w1) =>
    if err = Error.ErrNotFound then (.error .ErrUserNotFound, w1) else (.error err, w1)
  | (.ok user, w1) =>
    match user.VerifiedAt with
    | none => (.error .ErrUserNotVerified, w1)
    | some _ =>
      match CompareHashAndPassword env user.Pass authorizer with
      | some err => (.error err, w1)
      | none => (.ok user, w1)

/-- `Authentication.ChangePassword`; the result is the returned `error`, `none` for nil. -/
def ChangePassword (env : Env) (w : World) (userid prev new : String) : Option Error × World :=
  match GenerateFromPassword env w new DefaultCost with
  | (.error err, w1) => (some err, w1)
  | (.ok next, w1) =>
    match FindOne w1 (.IDEquals userid) with
    | (.error err, w2) =>
      if err = Error.ErrNotFound then (some .ErrUserNotFound, w2) else (some err, w2)
    | (.ok user, w2) =>
      match CompareHashAndPassword env user.Pass prev with
      | some err => (some err, w2)
      | none =>
        match Update env w2 (.IDEquals userid) (.PassSet next) with
        | (.error err, w3) => (some err, w3)
        | (.ok _, w3) => (none, w3)

/-- `Authentication.ReRequestVerification`; the result is the returned `error`. -/
def ReRequestVerification (env : Env) (w : World) (identifier : String) : Option Error × World :=
  match NewV4 env w with
  | (.error err, w1) => (some err, w1)
  | (.ok key, w1) =>
    match FindOne w1 (.EmailEquals identifier) with
    | (.error err, w2) => (some err, w2)
    | (.ok user, w2) =>
      match Enqueue env w2 user.Name identifier "Please verify your email address"
          (TemplateID "verify") key.String with
      | (some err, w3) => (some err, w3)
      | (none, w3) =>
        match Update env w3 (.EmailEquals identifier) (.VerifyKeySet key.String) with
        | (.error err, w4) => (some err, w4)
        | (.ok _, w4) => (none, w4)

/-- `Authentication.ValidateEmailVerificationKey`; the result is the returned pair
`(bool, error)`. -/
def ValidateEmailVerificationKey (env : Env) (w : World) (key : String) :
    (Bool × Option Error) × World :=
  match Update env w (.VerifyKeyEquals key) (.VerifiedAtSet (env.Now w.tick)) with
  | (.error err, w1) =>
    if err = Error.ErrNotFound then ((false, none), w1) else ((false, some err), w1)
  | (.ok _, w1) => ((true, none), w1)

/-! ## The step relation -/

/-- A request to the service. -/
inductive Op where
  | Register (name identifier authorizer : String)
  | Login (identifier authorizer : String)
  | ChangePassword (userid prev new : String)
  | ReRequestVerification (identifier : String)
  | ValidateEmailVerificationKey (key : String)
  deriving DecidableEq, Repr

/-- The world after serving one request. -/
def step (env : Env) (w : World) : Op → World
  | .Register name identifier authorizer => (Register env w name identifier authorizer).2
  | .Login identifier authorizer => (Login env w identifier authorizer).2
  | .ChangePassword userid prev new => (ChangePassword env w userid prev new).2
  | .ReRequestVerification identifier => (ReRequestVerification env w identifier).2
  | .ValidateEmailVerificationKey key => (ValidateEmailVerificationKey env w key).2

/-- The worlds the service can be in: it starts with an empty store, an empty queue and
an empty log, and then serves requests one after the other. -/
inductive Reachable (env : Env) : World → Prop where
  | init : Reachable env { users := [], queue := [], log := [] }
  | next (w : World) (op : Op) : Reachable env w → Reachable env (step env w op)


/-! ## Vocabulary of the statements -/

/-- Whether a call is a write to the record store. -/
def Call.isWrite : Call → Bool
  | .CreateOne _ => true
  | .Update _ _ _ => true
  | _ => false

/-- The "verify your email" mail that `Register` and `ReRequestVerification` enqueue
for the given recipient and token. -/
def verifyMail (name identifier : String) (key : UUID) : Mail :=
  { name := name, addr := identifier, subj := "Please verify your email address",
    template := "verify", Key := key.String }

/-- A hasher is correct when a hash it produced accepts exactly the password it was
produced from. -/
def CorrectHasher (env : Env) : Prop :=
  ∀ t p c h, env.GenerateFromPassword t p c = .ok h →
    ∀ q, env.CompareHashAndPassword h q = none ↔ p = q

/-- The data-model invariant on verification keys: a key that is set belongs to at most
one record. -/
def KeysUnique (users : List UserModel) : Prop :=
  users.Pairwise (fun a b => a.VerifyKey = none ∨ a.VerifyKey ≠ b.VerifyKey)

/-- The data-model invariant on identities: no two records share an email or an id. -/
def StoreInvariant (users : List UserModel) : Prop :=
  users.Pairwise (fun a b => a.Email ≠ b.Email ∧ a.ID ≠ b.ID)

/-- The contract of the token generator: tokens generated at different moments have
different texts. -/
def TokensDistinct (env : Env) : Prop :=
  ∀ s t a b, env.NewV4 s = .ok a → env.NewV4 t = .ok b → a.String = b.String → s = t

/-- Every stored verification key is the text of a token that was generated earlier. -/
def KeyProvenance (env : Env) (w : World) : Prop :=
  ∀ u ∈ w.users, ∀ k, u.VerifyKey = some k →
    ∃ t key, t < w.tick ∧ env.NewV4 t = .ok key ∧ key.String = k

instance (users : List UserModel) : Decidable (KeysUnique users) := by
  unfold KeysUnique
  infer_instance

/-! ## Concrete collaborators and stores -/

/-- A family of concrete collaborators: the hasher stores the password itself and accepts
exactly it, the token generated at tick `t` has all sixteen bytes equal to `t`, and each
flag makes the corresponding collaborator fail on every call. -/
def testEnv (hashFails tokenFails mailFails dbFails : Bool) : Env where
  GenerateFromPassword := fun _ pw _ => if hashFails then .error "bcrypt: failure" else .ok pw
  CompareHashAndPassword := fun h pw =>
    if h = pw then none else some "hashedPassword is not the hash of the given password"
  NewV4 := fun t => if tokenFails then .error "uuid: failure" else .ok ⟨List.replicate 16 t⟩
  enqueueFault := fun _ => if mailFails then some "queue unavailable" else none
  dbFault := fun _ => if dbFails then some "connection refused" else none
  newID := fun t => String.mk ('u' :: List.replicate t 'i')
  Now := fun t => 1000 + t

/-- The collaborators of `testEnv` when nothing fails. -/
def goodEnv : Env := testEnv false false false false

/-- An unverified record. -/
def alice : UserModel :=
  { ID := "a1", Email := "a@x.com", Name := "Alice", Pass := "pw1",
    VerifyKey := some "k1", VerifiedAt := none }

/-- A verified record. -/
def bob : UserModel :=
  { ID := "b2", Email := "b@x.com", Name := "Bob", Pass := "pw2",
    VerifyKey := some "k2", VerifiedAt := some 7 }

/-- A store holding `alice` and `bob`, with nothing queued and nothing logged. -/
def twoUsers : World := { users := [alice, bob], queue := [], log := [] }

/-- An unverified record that carries the same verification key as `alice`. -/
def carol : UserModel :=
  { ID := "c3", Email := "c@x.com", Name := "Carol", Pass := "pw3",
    VerifyKey := some "k1", VerifiedAt := none }

/-- A store in which two records share a verification key. -/
def sharedKey : World := { users := [alice, carol], queue := [], log := [] }

/-- A store with unique keys in which the key of the first record is the text of the
token that `goodEnv` generates next. -/
def repeatedKey : World :=
  { users := [{ alice with VerifyKey := some "00000000-0000-0000-0000-000000000000" }, bob],
    queue := [], log := [] }

/-! ## Facts about the record store -/

theorem findFirst_holds {f : Filter} {us : List UserModel} {r : UserModel}
    (h : findFirst f us = some r) : f.holds r = true := by
  unfold findFirst at h
  exact List.find?_some h

theorem findFirst_mem {f : Filter} {us : List UserModel} {r : UserModel}
    (h : findFirst f us = some r) : r ∈ us := by
  unfold findFirst at h
  exact List.mem_of_find?_eq_some h

theorem findFirst_eq_none {f : Filter} {us : List UserModel} :
    findFirst f us = none ↔ ∀ u ∈ us, f.holds u = false := by
  simp [findFirst, List.find?_eq_none]

theorem findFirst_cons (f : Filter) (u : UserModel) (us : List UserModel) :
    findFirst f (u :: us) = if f.holds u then some u else findFirst f us := by
  unfold findFirst
  by_cases h : f.holds u <;> simp [List.find?_cons, h]

/-- Not-found for an update is not-found for a lookup. -/
theorem updateFirst_eq_none {f : Filter} {s : SetParam} {us : List UserModel} :
    updateFirst f s us = none ↔ findFirst f us = none := by
  induction us with
  | nil => simp [updateFirst, findFirst]
  | cons u us ih =>
    rw [findFirst_cons]
    unfold updateFirst
    by_cases h : f.holds u
    · simp [h]
    · simp only [h, Bool.false_eq_true, if_false]
      rw [← ih]
      cases updateFirst f s us with
      | none => simp
      | some p => simp

/-- An update rewrites the record a lookup with the same filter finds, in place. -/
theorem updateFirst_of_findFirst {f : Filter} (s : SetParam) {us : List UserModel}
    {r : UserModel} (h : findFirst f us = some r) :
    ∃ i, us[i]? = some r ∧ updateFirst f s us = some (s.apply r, us.set i (s.apply r)) := by
  induction us with
  | nil => simp [findFirst] at h
  | cons u us ih =>
    rw [findFirst_cons] at h
    unfold updateFirst
    by_cases hu : f.holds u
    · simp only [hu, if_true, Option.some.injEq] at h
      subst h
      exact ⟨0, by simp, by simp [hu]⟩
    · simp only [hu, Bool.false_eq_true, if_false] at h
      obtain ⟨i, hi, hupd⟩ := ih h
      exact ⟨i + 1, by simpa using hi, by simp [hu, hupd]⟩

/-- Every record keeps its position through an update, and is either untouched or
the updated version of a record that satisfies the filter. -/
theorem updateFirst_getElem? {f : Filter} {s : SetParam} {us us1 : List UserModel}
    {x : UserModel} (h : updateFirst f s us = some (x, us1)) (i : Nat) (r : UserModel)
    (hr : us[i]? = some r) :
    us1[i]? = some r ∨ (f.holds r = true ∧ us1[i]? = some (s.apply r)) := by
  induction us generalizing us1 i with
  | nil => simp at hr
  | cons u us ih =>
    unfold updateFirst at h
    by_cases hu : f.holds u
    · simp only [hu, if_true, Option.some.injEq, Prod.mk.injEq] at h
      obtain ⟨-, rfl⟩ := h
      cases i with
      | zero =>
        simp only [List.getElem?_cons_zero, Option.some.injEq] at hr
        subst hr
        exact Or.inr ⟨hu, by simp⟩
      | succ j => exact Or.inl (by simpa using hr)
    · simp only [hu, Bool.false_eq_true, if_false] at h
      cases hrec : updateFirst f s us with
      | none => simp [hrec] at h
      | some p =>
        obtain ⟨y, us2⟩ := p
        simp only [hrec, Option.some.injEq, Prod.mk.injEq] at h
        obtain ⟨rfl, rfl⟩ := h
        cases i with
        | zero => exact Or.inl (by simpa using hr)
        | succ j =>
          have := ih hrec j (by simpa using hr)
          simpa using this

/-- An update does not change the number of records. -/
theorem updateFirst_length {f : Filter} {s : SetParam} {us us1 : List UserModel}
    {x : UserModel} (h : updateFirst f s us = some (x, us1)) : us1.length = us.length := by
  cases hf : findFirst f us with
  | none => rw [updateFirst_eq_none.mpr hf] at h; cases h
  | some r =>
    obtain ⟨i, -, hupd⟩ := updateFirst_of_findFirst s hf
    rw [hupd] at h
    simp only [Option.some.injEq, Prod.mk.injEq] at h
    rw [← h.2]
    simp

/-! ## Facts about the log -/

@[simp] theorem World.record_users (w : World) (c : Call) : (w.record c).users = w.users := rfl

@[simp] theorem World.record_queue (w : World) (c : Call) : (w.record c).queue = w.queue := rfl

@[simp] theorem World.record_log (w : World) (c : Call) : (w.record c).log = w.log ++ [c] := rfl

@[simp] theorem World.record_tick (w : World) (c : Call) : (w.record c).tick = w.tick + 1 := by
  simp [World.tick]

/-! ## Login -/

/-- Login never changes the store or the queue. -/
theorem Login_users (env : Env) (w : World) (identifier authorizer : String) :
    (Login env w identifier authorizer).2.users = w.users ∧
    (Login env w identifier authorizer).2.queue = w.queue := by
  unfold Login FindOne
  cases h : findFirst (.EmailEquals identifier) w.users with
  | none => simp
  | some u =>
    simp only []
    split
    · simp
    · split <;> simp

/-- C1: if the record stored under the email has `verifiedAt` unset, `Login` fails with
`ErrUserNotVerified` for every password and every behaviour of the hasher, and the store
is left as it was. -/
theorem Login_unverified (env : Env) (w : World) (identifier authorizer : String)
    (user : UserModel)
    (hfind : findFirst (.EmailEquals identifier) w.users = some user)
    (hunv : user.VerifiedAt = none) :
    (Login env w identifier authorizer).1 = .error .ErrUserNotVerified ∧
    (Login env w identifier authorizer).2.users = w.users := by
  refine ⟨?_, (Login_users env w identifier authorizer).1⟩
  simp [Login, FindOne, hfind, hunv]

/-- C2: `Login` returns exactly the record stored under the email when that record is
verified and the hasher accepts the password against its stored hash; it fails with the
hasher's comparison error when the record is verified and the hasher rejects the
password; it fails with `ErrUserNotFound` when no record has that email. -/
theorem Login_result (env : Env) (w : World) (identifier authorizer : String) :
    (∀ user, findFirst (.EmailEquals identifier) w.users = some user →
      user.VerifiedAt ≠ none → env.CompareHashAndPassword user.Pass authorizer = none →
      (Login env w identifier authorizer).1 = .ok user) ∧
    (∀ user m, findFirst (.EmailEquals identifier) w.users = some user →
      user.VerifiedAt ≠ none → env.CompareHashAndPassword user.Pass authorizer = some m →
      (Login env w identifier authorizer).1 = .error (.bcrypt m)) ∧
    ((∀ u ∈ w.users, u.Email ≠ identifier) →
      (Login env w identifier authorizer).1 = .error .ErrUserNotFound) := by
  refine ⟨?_, ?_, ?_⟩
  · intro user hfind hver hcmp
    obtain ⟨t, ht⟩ := Option.ne_none_iff_exists'.mp hver
    simp [Login, FindOne, hfind, ht, CompareHashAndPassword, hcmp]
  · intro user m hfind hver hcmp
    obtain ⟨t, ht⟩ := Option.ne_none_iff_exists'.mp hver
    simp [Login, FindOne, hfind, ht, CompareHashAndPassword, hcmp]
  · intro hnone
    have hf : findFirst (.EmailEquals identifier) w.users = none := by
      rw [findFirst_eq_none]
      intro u hu
      simpa [Filter.holds] using hnone u hu
    simp [Login, FindOne, hf]

/-! ## ChangePassword -/

/-- C3: if the previous password does not match the stored hash of the record with the
given id, `ChangePassword` returns an error (the hasher's comparison error, unless
hashing the new password already failed), makes no write call to the store, and leaves
the store and the queue exactly as they were. -/
theorem ChangePassword_mismatch (env : Env) (w : World) (userid prev new : String)
    (user : UserModel) (m : String)
    (hfind : findFirst (.IDEquals userid) w.users = some user)
    (hcmp : env.CompareHashAndPassword user.Pass prev = some m) :
    (ChangePassword env w userid prev new).1 ≠ none ∧
    (∀ next, env.GenerateFromPassword w.tick new DefaultCost = .ok next →
      (ChangePassword env w userid prev new).1 = some (.bcrypt m)) ∧
    (ChangePassword env w userid prev new).2.users = w.users ∧
    (ChangePassword env w userid prev new).2.queue = w.queue ∧
    (∃ calls, (ChangePassword env w userid prev new).2.log = w.log ++ calls ∧
      ∀ c ∈ calls, c.isWrite = false) := by
  unfold ChangePassword GenerateFromPassword
  cases hgen : env.GenerateFromPassword w.tick new DefaultCost with
  | error e =>
    simp only [World.record_users, World.record_queue, World.record_log]
    exact ⟨by simp, by simp, trivial, trivial, _, rfl, by simp [Call.isWrite]⟩
  | ok next =>
    simp only [FindOne, World.record_users, hfind, CompareHashAndPassword, hcmp,
      World.record_queue, World.record_log]
    exact ⟨by simp, by simp, trivial, trivial, _, List.append_assoc _ _ _,
      by simp [Call.isWrite]⟩

/-- A lookup after an update that leaves the looked-up field alone finds the updated
version of the record, when the record is the one both filters select. -/
theorem findFirst_updateFirst {f g : Filter} {s : SetParam} {us us1 : List UserModel}
    {r x : UserModel} (hg : ∀ u, g.holds (s.apply u) = g.holds u)
    (hf : findFirst f us = some r) (hgf : findFirst g us = some r)
    (hupd : updateFirst f s us = some (x, us1)) :
    x = s.apply r ∧ findFirst g us1 = some (s.apply r) := by
  induction us generalizing us1 with
  | nil => simp [findFirst] at hf
  | cons u us ih =>
    rw [findFirst_cons] at hf hgf
    unfold updateFirst at hupd
    by_cases hu : f.holds u
    · simp only [hu, if_true, Option.some.injEq, Prod.mk.injEq] at hf hupd
      subst hf
      obtain ⟨rfl, rfl⟩ := hupd
      have hgu : g.holds u = true := by
        by_cases hgu : g.holds u
        · exact hgu
        · simp only [hgu, Bool.false_eq_true, if_false] at hgf
          have := findFirst_holds hgf
          exact absurd this hgu
      refine ⟨rfl, ?_⟩
      rw [findFirst_cons, hg, hgu]
      rfl
    · simp only [hu, Bool.false_eq_true, if_false] at hf hupd
      have hgu : g.holds u = false := by
        by_cases hgu : g.holds u
        · simp only [hgu, if_true, Option.some.injEq] at hgf
          subst hgf
          exact absurd (findFirst_holds hf) hu
        · simpa using hgu
      simp only [hgu, Bool.false_eq_true, if_false] at hgf
      cases hrec : updateFirst f s us with
      | none => simp [hrec] at hupd
      | some p =>
        obtain ⟨y, us2⟩ := p
        simp only [hrec, Option.some.injEq, Prod.mk.injEq] at hupd
        obtain ⟨rfl, rfl⟩ := hupd
        obtain ⟨hy, hfind⟩ := ih hf hgf hrec
        refine ⟨hy, ?_⟩
        rw [findFirst_cons, hgu]
        simpa using hfind

/-- What a successful `ChangePassword` did. -/
theorem ChangePassword_success {env : Env} {w : World} {userid prev new : String}
    (hsucc : (ChangePassword env w userid prev new).1 = none) :
    ∃ next user x us1, env.GenerateFromPassword w.tick new DefaultCost = .ok next ∧
      findFirst (.IDEquals userid) w.users = some user ∧
      env.CompareHashAndPassword user.Pass prev = none ∧
      updateFirst (.IDEquals userid) (.PassSet next) w.users = some (x, us1) ∧
      (ChangePassword env w userid prev new).2.users = us1 ∧
      (ChangePassword env w userid prev new).2.queue = w.queue := by
  cases hgen : env.GenerateFromPassword w.tick new DefaultCost with
  | error e => simp [ChangePassword, GenerateFromPassword, hgen] at hsucc
  | ok next =>
    cases hfind : findFirst (.IDEquals userid) w.users with
    | none => simp [ChangePassword, GenerateFromPassword, hgen, FindOne, hfind] at hsucc
    | some user =>
      cases hcmp : env.CompareHashAndPassword user.Pass prev with
      | some e =>
        simp [ChangePassword, GenerateFromPassword, hgen, FindOne, hfind,
          CompareHashAndPassword, hcmp] at hsucc
      | none =>
        cases hfault : env.dbFault (w.tick + 1 + 1) with
        | some e =>
          simp [ChangePassword, GenerateFromPassword, hgen, FindOne, hfind,
            CompareHashAndPassword, hcmp, Update, hfault] at hsucc
        | none =>
          cases hupd : updateFirst (.IDEquals userid) (.PassSet next) w.users with
          | none =>
            simp [ChangePassword, GenerateFromPassword, hgen, FindOne, hfind,
              CompareHashAndPassword, hcmp, Update, hfault, hupd] at hsucc
          | some p =>
            obtain ⟨x, us1⟩ := p
            refine ⟨next, user, x, us1, rfl, rfl, hcmp, hupd, ?_, ?_⟩ <;>
              simp [ChangePassword, GenerateFromPassword, hgen, FindOne, hfind,
                CompareHashAndPassword, hcmp, Update, hfault, hupd]

/-- C4 (amended): with a correct hasher, after a successful `ChangePassword` on a verified
record the stored hash is the hash computed from the new password and nothing else in
the store changed, a subsequent `Login` with the new password returns the record,
and a subsequent `Login` with the previous password fails provided the new password
differs from it. -/
theorem ChangePassword_then_Login (env : Env) (w : World) (userid prev new : String)
    (r : UserModel) (hcorrect : CorrectHasher env)
    (hid : findFirst (.IDEquals userid) w.users = some r)
    (hemail : findFirst (.EmailEquals r.Email) w.users = some r)
    (hver : r.VerifiedAt ≠ none)
    (hsucc : (ChangePassword env w userid prev new).1 = none) :
    ∃ next, env.GenerateFromPassword w.tick new DefaultCost = .ok next ∧
      (∃ i, w.users[i]? = some r ∧
        (ChangePassword env w userid prev new).2.users = w.users.set i { r with Pass := next }) ∧
      findFirst (.IDEquals userid) (ChangePassword env w userid prev new).2.users
        = some { r with Pass := next } ∧
      (Login env (ChangePassword env w userid prev new).2 r.Email new).1
        = .ok { r with Pass := next } ∧
      (prev ≠ new →
        ∃ m, (Login env (ChangePassword env w userid prev new).2 r.Email prev).1
          = .error (.bcrypt m)) := by
  obtain ⟨next, user, x, us1, hgen, hfind, -, hupd, husers, -⟩ := ChangePassword_success hsucc
  rw [hid] at hfind
  cases hfind
  refine ⟨next, hgen, ?_, ?_, ?_, ?_⟩
  · obtain ⟨i, hi, hset⟩ := updateFirst_of_findFirst (.PassSet next) hid
    rw [hupd] at hset
    simp only [Option.some.injEq, Prod.mk.injEq] at hset
    exact ⟨i, hi, by rw [husers, hset.2]; rfl⟩
  · rw [husers]
    exact (findFirst_updateFirst (by intro u; rfl) hid hid hupd).2
  · have hfe := (findFirst_updateFirst (g := .EmailEquals r.Email) (by intro u; rfl)
      hid hemail hupd).2
    rw [← husers] at hfe
    obtain ⟨t, ht⟩ := Option.ne_none_iff_exists'.mp hver
    have hacc : env.CompareHashAndPassword next new = none := (hcorrect _ _ _ _ hgen new).mpr rfl
    simp [Login, FindOne, hfe, SetParam.apply, ht, CompareHashAndPassword, hacc]
  · intro hne
    have hfe := (findFirst_updateFirst (g := .EmailEquals r.Email) (by intro u; rfl)
      hid hemail hupd).2
    rw [← husers] at hfe
    obtain ⟨t, ht⟩ := Option.ne_none_iff_exists'.mp hver
    cases hrej : env.CompareHashAndPassword next prev with
    | none => exact absurd ((hcorrect _ _ _ _ hgen prev).mp hrej).symm hne
    | some m =>
      exact ⟨m, by simp [Login, FindOne, hfe, SetParam.apply, ht, CompareHashAndPassword, hrej]⟩

/-! ## Register -/

/-- The text of a UUID is never empty. -/
theorem UUID.String_ne_empty (u : UUID) : u.String ≠ "" := by
  intro h
  have hlen := congrArg String.length h
  simp [UUID.String, String.length] at hlen

/-- C5: if hashing, token generation or the notification dispatch fails, `Register`
returns the error of that first failing step with no record, the store and the queue
are unchanged, and no call to the store is made; and in every run a `CreateOne` call
is made only directly after a successful `Enqueue`. -/
theorem Register_failure (env : Env) (w : World) (name identifier authorizer : String) :
    (∀ m, env.GenerateFromPassword w.tick authorizer DefaultCost = .error m →
      (Register env w name identifier authorizer).1 = .error (.bcrypt m) ∧
      (Register env w name identifier authorizer).2.users = w.users ∧
      (Register env w name identifier authorizer).2.queue = w.queue ∧
      (Register env w name identifier authorizer).2.log
        = w.log ++ [.GenerateFromPassword false]) ∧
    (∀ hash m, env.GenerateFromPassword w.tick authorizer DefaultCost = .ok hash →
      env.NewV4 (w.tick + 1) = .error m →
      (Register env w name identifier authorizer).1 = .error (.uuid m) ∧
      (Register env w name identifier authorizer).2.users = w.users ∧
      (Register env w name identifier authorizer).2.queue = w.queue ∧
      (Register env w name identifier authorizer).2.log
        = w.log ++ [.GenerateFromPassword true, .NewV4 false]) ∧
    (∀ hash key m, env.GenerateFromPassword w.tick authorizer DefaultCost = .ok hash →
      env.NewV4 (w.tick + 1) = .ok key → env.enqueueFault (w.tick + 2) = some m →
      (Register env w name identifier authorizer).1 = .error (.mailworker m) ∧
      (Register env w name identifier authorizer).2.users = w.users ∧
      (Register env w name identifier authorizer).2.queue = w.queue ∧
      (Register env w name identifier authorizer).2.log
        = w.log ++ [.GenerateFromPassword true, .NewV4 true,
            .Enqueue (verifyMail name identifier key) false]) ∧
    (∃ calls, (Register env w name identifier authorizer).2.log = w.log ++ calls ∧
      ∀ ok, Call.CreateOne ok ∈ calls → ∃ mail,
        calls = [.GenerateFromPassword true, .NewV4 true, .Enqueue mail true, .CreateOne ok]) := by
  refine ⟨?_, ?_, ?_, ?_⟩
  · intro m hgen
    simp [Register, GenerateFromPassword, hgen]
  · intro hash m hgen hkey
    simp [Register, GenerateFromPassword, hgen, NewV4, hkey]
  · intro hash key m hgen hkey henq
    simp [Register, GenerateFromPassword, hgen, NewV4, hkey, Enqueue, henq, verifyMail,
      TemplateID]
  · cases hgen : env.GenerateFromPassword w.tick authorizer DefaultCost with
    | error e =>
      exact ⟨[.GenerateFromPassword false],
        by simp [Register, GenerateFromPassword, hgen], by simp⟩
    | ok hash =>
      cases hkey : env.NewV4 (w.tick + 1) with
      | error e =>
        exact ⟨[.GenerateFromPassword true, .NewV4 false],
          by simp [Register, GenerateFromPassword, hgen, NewV4, hkey], by simp⟩
      | ok key =>
        cases henq : env.enqueueFault (w.tick + 2) with
        | some e =>
          exact ⟨[.GenerateFromPassword true, .NewV4 true,
              .Enqueue (verifyMail name identifier key) false],
            by simp [Register, GenerateFromPassword, hgen, NewV4, hkey, Enqueue, henq,
              verifyMail, TemplateID],
            by simp⟩
        | none =>
          have htick : ∀ (us : List UserModel) (q : List Mail) (l : List Call),
              World.tick { users := us, queue := q, log := l } = l.length := fun _ _ _ => rfl
          cases hfault : env.dbFault (w.tick + 3) with
          | some e =>
            refine ⟨[.GenerateFromPassword true, .NewV4 true,
              .Enqueue (verifyMail name identifier key) true, .CreateOne false], ?_, ?_⟩
            · simp only [World.tick] at hfault hgen hkey henq
              simp [Register, GenerateFromPassword, hgen, NewV4, hkey, Enqueue, henq,
                verifyMail, TemplateID, CreateOne, htick, World.tick, hfault]
            · intro ok hmem
              exact ⟨verifyMail name identifier key, by simpa using hmem⟩
          | none =>
            by_cases hdup : ∃ x ∈ w.users, x.Email = identifier ∨ x.ID = env.newID (w.log.length + 3)
            · refine ⟨[.GenerateFromPassword true, .NewV4 true,
                .Enqueue (verifyMail name identifier key) true, .CreateOne false], ?_, ?_⟩
              · simp only [World.tick] at hfault hdup hgen hkey henq
                simp [Register, GenerateFromPassword, hgen, NewV4, hkey, Enqueue, henq,
                  verifyMail, TemplateID, CreateOne, htick, World.tick, hfault]
                rw [if_pos hdup]
                simp
              · intro ok hmem
                exact ⟨verifyMail name identifier key, by simpa using hmem⟩
            · refine ⟨[.GenerateFromPassword true, .NewV4 true,
                .Enqueue (verifyMail name identifier key) true, .CreateOne true], ?_, ?_⟩
              · simp only [World.tick] at hfault hdup hgen hkey henq
                simp [Register, GenerateFromPassword, hgen, NewV4, hkey, Enqueue, henq,
                  verifyMail, TemplateID, CreateOne, htick, World.tick, hfault]
                rw [if_neg hdup]
              · intro ok hmem
                exact ⟨verifyMail name identifier key, by simpa using hmem⟩

/-- C6: when `Register` succeeds, the store gains exactly the returned record after all
the records it had, which are unchanged; the record has the given email and name, the
hash computed from the given password, `verifiedAt` unset and a non-empty `verifyKey`;
exactly one mail joined the queue, it carries that key, and it was enqueued before the
record was created. -/
theorem Register_success (env : Env) (w : World) (name identifier authorizer : String)
    (user : UserModel) (hsucc : (Register env w name identifier authorizer).1 = .ok user) :
    ∃ hash key, env.GenerateFromPassword w.tick authorizer DefaultCost = .ok hash ∧
      env.NewV4 (w.tick + 1) = .ok key ∧
      user = { ID := env.newID (w.tick + 3), Email := identifier, Name := name, Pass := hash,
               VerifyKey := some key.String, VerifiedAt := none } ∧
      key.String ≠ "" ∧
      (Register env w name identifier authorizer).2.users = w.users ++ [user] ∧
      (Register env w name identifier authorizer).2.queue
        = w.queue ++ [verifyMail name identifier key] ∧
      (verifyMail name identifier key).Key = key.String ∧
      (Register env w name identifier authorizer).2.log
        = w.log ++ [.GenerateFromPassword true, .NewV4 true,
            .Enqueue (verifyMail name identifier key) true, .CreateOne true] := by
  cases hgen : env.GenerateFromPassword w.tick authorizer DefaultCost with
  | error e => simp [Register, GenerateFromPassword, hgen] at hsucc
  | ok hash =>
    cases hkey : env.NewV4 (w.tick + 1) with
    | error e => simp [Register, GenerateFromPassword, hgen, NewV4, hkey] at hsucc
    | ok key =>
      cases henq : env.enqueueFault (w.tick + 2) with
      | some e =>
        simp [Register, GenerateFromPassword, hgen, NewV4, hkey, Enqueue, henq] at hsucc
      | none =>
        simp only [World.tick] at hgen hkey henq
        cases hfault : env.dbFault (w.log.length + 3) with
        | some e =>
          simp [Register, GenerateFromPassword, hgen, NewV4, hkey, Enqueue, henq, CreateOne,
            World.tick, hfault] at hsucc
        | none =>
          by_cases hdup : ∃ x ∈ w.users,
              x.Email = identifier ∨ x.ID = env.newID (w.log.length + 3)
          · simp [Register, GenerateFromPassword, hgen, NewV4, hkey, Enqueue, henq, CreateOne,
              World.tick, hfault] at hsucc
            rw [if_pos hdup] at hsucc
            simp at hsucc
          · simp [Register, GenerateFromPassword, hgen, NewV4, hkey, Enqueue, henq, CreateOne,
              World.tick, hfault] at hsucc
            rw [if_neg hdup] at hsucc
            simp only [Except.ok.injEq] at hsucc
            refine ⟨hash, key, rfl, rfl, hsucc.symm, UUID.String_ne_empty key, ?_, ?_, rfl, ?_⟩
            · simp [Register, GenerateFromPassword, hgen, NewV4, hkey, Enqueue, henq, CreateOne,
                World.tick, hfault]
              rw [if_neg hdup]
              simp [← hsucc]
            · simp [Register, GenerateFromPassword, hgen, NewV4, hkey, Enqueue, henq, CreateOne,
                World.tick, hfault, verifyMail, TemplateID]
              rw [if_neg hdup]
            · simp [Register, GenerateFromPassword, hgen, NewV4, hkey, Enqueue, henq, CreateOne,
                World.tick, hfault, verifyMail, TemplateID]
              rw [if_neg hdup]

/-! ## ValidateEmailVerificationKey -/

/-- With a working store and no record carrying the token,
`ValidateEmailVerificationKey` answers `(false, nil)` and changes no record. -/
theorem ValidateEmailVerificationKey_absent (env : Env) (w : World) (key : String)
    (hfault : env.dbFault w.tick = none) (hnone : ∀ u ∈ w.users, u.VerifyKey ≠ some key) :
    (ValidateEmailVerificationKey env w key).1 = (false, none) ∧
    (ValidateEmailVerificationKey env w key).2.users = w.users := by
  have hf : findFirst (.VerifyKeyEquals key) w.users = none := by
    rw [findFirst_eq_none]
    intro u hu
    simpa [Filter.holds] using hnone u hu
  have hupd := (updateFirst_eq_none (s := .VerifiedAtSet (env.Now w.tick))).mpr hf
  simp [ValidateEmailVerificationKey, Update, hfault, hupd]


/-- C7: `ValidateEmailVerificationKey` returns `(false, nil)` and leaves the store
unchanged when no record carries the token; when one does it returns `(true, nil)` after
setting `verifiedAt` of the matching record, and of no other, to the current time;
it returns `(false, err)`, with the store unchanged, when the store fails otherwise;
and because the key stays stored, a second call with the same token returns `(true, nil)`
again. -/
theorem ValidateEmailVerificationKey_result (env : Env) (w : World) (key : String) :
    (env.dbFault w.tick = none → (∀ u ∈ w.users, u.VerifyKey ≠ some key) →
      (ValidateEmailVerificationKey env w key).1 = (false, none) ∧
      (ValidateEmailVerificationKey env w key).2.users = w.users) ∧
    (∀ r, env.dbFault w.tick = none → findFirst (.VerifyKeyEquals key) w.users = some r →
      (ValidateEmailVerificationKey env w key).1 = (true, none) ∧
      (∃ i, w.users[i]? = some r ∧ (ValidateEmailVerificationKey env w key).2.users
        = w.users.set i { r with VerifiedAt := some (env.Now w.tick) }) ∧
      (env.dbFault (w.tick + 1) = none →
        (ValidateEmailVerificationKey env (ValidateEmailVerificationKey env w key).2 key).1
          = (true, none))) ∧
    (∀ m, env.dbFault w.tick = some m →
      (ValidateEmailVerificationKey env w key).1 = (false, some (.db m)) ∧
      (ValidateEmailVerificationKey env w key).2.users = w.users) := by
  refine ⟨?_, ?_, ?_⟩
  · intro hfault hnone
    exact ValidateEmailVerificationKey_absent env w key hfault hnone
  · intro r hfault hfind
    obtain ⟨i, hi, hupd⟩ := updateFirst_of_findFirst (.VerifiedAtSet (env.Now w.tick)) hfind
    have hagain := (findFirst_updateFirst (g := .VerifyKeyEquals key) (by intro u; rfl)
      hfind hfind hupd).2
    refine ⟨?_, ⟨i, hi, ?_⟩, ?_⟩
    · simp [ValidateEmailVerificationKey, Update, hfault, hupd]
    · simp [ValidateEmailVerificationKey, Update, hfault, hupd, SetParam.apply]
    · intro hfault2
      have hw : (ValidateEmailVerificationKey env w key).2
          = { users := w.users.set i ((SetParam.VerifiedAtSet (env.Now w.tick)).apply r),
              queue := w.queue,
              log := w.log ++ [.Update (.VerifyKeyEquals key)
                (.VerifiedAtSet (env.Now w.tick)) true] } := by
        simp [ValidateEmailVerificationKey, Update, hfault, hupd]
      rw [hw]
      obtain ⟨j, -, hupd2⟩ := updateFirst_of_findFirst
        (.VerifiedAtSet (env.Now (w.tick + 1))) hagain
      simp only [World.tick] at hfault2 hupd2
      simp [ValidateEmailVerificationKey, Update, World.tick, hfault2, hupd2]
  · intro m hfault
    simp [ValidateEmailVerificationKey, Update, hfault]

/-! ## ReRequestVerification -/

/-- C9: if token generation, the lookup or the dispatch fails, `ReRequestVerification`
returns that collaborator's error unchanged and leaves every record as it was; for an
email with no record the error is the store's `ErrNotFound`, not `ErrUserNotFound`, and
no mail is enqueued. -/
theorem ReRequestVerification_failure (env : Env) (w : World) (identifier : String) :
    (∀ m, env.NewV4 w.tick = .error m →
      (ReRequestVerification env w identifier).1 = some (.uuid m) ∧
      (ReRequestVerification env w identifier).2.users = w.users ∧
      (ReRequestVerification env w identifier).2.queue = w.queue) ∧
    (∀ key, env.NewV4 w.tick = .ok key → (∀ u ∈ w.users, u.Email ≠ identifier) →
      (ReRequestVerification env w identifier).1 = some .ErrNotFound ∧
      (ReRequestVerification env w identifier).1 ≠ some .ErrUserNotFound ∧
      (ReRequestVerification env w identifier).2.users = w.users ∧
      (ReRequestVerification env w identifier).2.queue = w.queue ∧
      (ReRequestVerification env w identifier).2.log
        = w.log ++ [.NewV4 true, .FindOne (.EmailEquals identifier) false]) ∧
    (∀ key user m, env.NewV4 w.tick = .ok key →
      findFirst (.EmailEquals identifier) w.users = some user →
      env.enqueueFault (w.tick + 2) = some m →
      (ReRequestVerification env w identifier).1 = some (.mailworker m) ∧
      (ReRequestVerification env w identifier).2.users = w.users ∧
      (ReRequestVerification env w identifier).2.queue = w.queue) := by
  refine ⟨?_, ?_, ?_⟩
  · intro m hkey
    simp [ReRequestVerification, NewV4, hkey]
  · intro key hkey hnone
    have hf : findFirst (.EmailEquals identifier) w.users = none := by
      rw [findFirst_eq_none]
      intro u hu
      simpa [Filter.holds] using hnone u hu
    simp [ReRequestVerification, NewV4, hkey, FindOne, hf]
  · intro key user m hkey hfind henq
    simp [ReRequestVerification, NewV4, hkey, FindOne, hfind, Enqueue, henq]

/-- After the key of the record stored under an email is overwritten by a different one,
no record carries the old key any more, provided keys were unique. -/
theorem updateFirst_old_key_gone {us us1 : List UserModel} {e new old : String}
    {r x : UserModel} (huniq : KeysUnique us)
    (hfind : findFirst (.EmailEquals e) us = some r) (hold : r.VerifyKey = some old)
    (hne : new ≠ old)
    (hupd : updateFirst (.EmailEquals e) (.VerifyKeySet new) us = some (x, us1)) :
    ∀ b ∈ us1, b.VerifyKey ≠ some old := by
  induction us generalizing us1 with
  | nil => simp [findFirst] at hfind
  | cons u us ih =>
    unfold KeysUnique at huniq
    rw [List.pairwise_cons] at huniq
    obtain ⟨hhead, htail⟩ := huniq
    rw [findFirst_cons] at hfind
    unfold updateFirst at hupd
    by_cases hu : (Filter.EmailEquals e).holds u
    · simp only [hu, if_true, Option.some.injEq, Prod.mk.injEq] at hfind hupd
      subst hfind
      obtain ⟨-, rfl⟩ := hupd
      intro b hb
      rcases List.mem_cons.mp hb with rfl | hb
      · simpa [SetParam.apply] using hne
      · intro hbk
        rcases hhead b hb with h | h
        · rw [hold] at h; cases h
        · exact h (by rw [hold, hbk])
    · simp only [hu, Bool.false_eq_true, if_false] at hfind hupd
      cases hrec : updateFirst (.EmailEquals e) (.VerifyKeySet new) us with
      | none => simp [hrec] at hupd
      | some p =>
        obtain ⟨y, us2⟩ := p
        simp only [hrec, Option.some.injEq, Prod.mk.injEq] at hupd
        obtain ⟨rfl, rfl⟩ := hupd
        intro b hb
        rcases List.mem_cons.mp hb with rfl | hb
        · intro hbk
          rcases hhead r (findFirst_mem hfind) with h | h
          · rw [hbk] at h; cases h
          · exact h (by rw [hold, hbk])
        · exact ih htail hfind hrec b hb

/-- What a successful `ReRequestVerification` did. -/
theorem ReRequestVerification_ok {env : Env} {w : World} {identifier : String}
    (hsucc : (ReRequestVerification env w identifier).1 = none) :
    ∃ key user x us1, env.NewV4 w.tick = .ok key ∧
      findFirst (.EmailEquals identifier) w.users = some user ∧
      updateFirst (.EmailEquals identifier) (.VerifyKeySet key.String) w.users = some (x, us1) ∧
      (ReRequestVerification env w identifier).2.users = us1 ∧
      (ReRequestVerification env w identifier).2.queue
        = w.queue ++ [verifyMail user.Name identifier key] ∧
      (ReRequestVerification env w identifier).2.log
        = w.log ++ [.NewV4 true, .FindOne (.EmailEquals identifier) true,
            .Enqueue (verifyMail user.Name identifier key) true,
            .Update (.EmailEquals identifier) (.VerifyKeySet key.String) true] := by
  cases hkey : env.NewV4 w.tick with
  | error e => simp [ReRequestVerification, NewV4, hkey] at hsucc
  | ok key =>
    cases hfind : findFirst (.EmailEquals identifier) w.users with
    | none => simp [ReRequestVerification, NewV4, hkey, FindOne, hfind] at hsucc
    | some user =>
      cases henq : env.enqueueFault (w.tick + 2) with
      | some e =>
        simp [ReRequestVerification, NewV4, hkey, FindOne, hfind, Enqueue, henq] at hsucc
      | none =>
        simp only [World.tick] at hkey henq
        cases hfault : env.dbFault (w.log.length + 3) with
        | some e =>
          simp [ReRequestVerification, NewV4, hkey, FindOne, hfind, Enqueue, henq, Update,
            World.tick, hfault] at hsucc
        | none =>
          cases hupd : updateFirst (.EmailEquals identifier) (.VerifyKeySet key.String)
              w.users with
          | none =>
            simp [ReRequestVerification, NewV4, hkey, FindOne, hfind, Enqueue, henq, Update,
              World.tick, hfault, hupd] at hsucc
          | some p =>
            obtain ⟨x, us1⟩ := p
            refine ⟨key, user, x, us1, rfl, rfl, hupd, ?_, ?_, ?_⟩ <;>
              simp [ReRequestVerification, NewV4, hkey, FindOne, hfind, Enqueue, henq, Update,
                World.tick, hfault, hupd, verifyMail, TemplateID]

/-- C8 (amended): when `ReRequestVerification` succeeds for the email of an existing
record, the record's `verifyKey` becomes the newly generated token, which is the one the
enqueued mail carries, and nothing else in the store changes;
`ValidateEmailVerificationKey` with the new key then returns `(true, nil)`; and with the
old key it returns `(false, nil)` and changes nothing, provided no two records shared a
set key and the new token differs from the old key. -/
theorem ReRequestVerification_success (env : Env) (w : World) (identifier : String)
    (r : UserModel)
    (hfind : findFirst (.EmailEquals identifier) w.users = some r)
    (hsucc : (ReRequestVerification env w identifier).1 = none) :
    ∃ key, env.NewV4 w.tick = .ok key ∧
      (∃ i, w.users[i]? = some r ∧ (ReRequestVerification env w identifier).2.users
        = w.users.set i { r with VerifyKey := some key.String }) ∧
      (ReRequestVerification env w identifier).2.queue
        = w.queue ++ [verifyMail r.Name identifier key] ∧
      (∀ w2 : World, w2.users = (ReRequestVerification env w identifier).2.users →
        env.dbFault w2.tick = none →
        (ValidateEmailVerificationKey env w2 key.String).1 = (true, none)) ∧
      (∀ old, r.VerifyKey = some old → KeysUnique w.users → key.String ≠ old →
        ∀ w2 : World, w2.users = (ReRequestVerification env w identifier).2.users →
          env.dbFault w2.tick = none →
          (ValidateEmailVerificationKey env w2 old).1 = (false, none) ∧
          (ValidateEmailVerificationKey env w2 old).2.users = w2.users) := by
  obtain ⟨key, user, x, us1, hkey, hfind2, hupd, husers, hqueue, -⟩ :=
    ReRequestVerification_ok hsucc
  rw [hfind] at hfind2
  cases hfind2
  obtain ⟨i, hi, hset⟩ := updateFirst_of_findFirst (.VerifyKeySet key.String) hfind
  have hus1 : us1 = w.users.set i { r with VerifyKey := some key.String } := by
    rw [hupd] at hset
    simp only [Option.some.injEq, Prod.mk.injEq] at hset
    rw [hset.2]
    rfl
  refine ⟨key, hkey, ⟨i, hi, by rw [husers, hus1]⟩, hqueue, ?_, ?_⟩
  · intro w2 hw2 hfault
    rw [husers, hus1] at hw2
    have hmem : ({ r with VerifyKey := some key.String } : UserModel) ∈ w2.users := by
      rw [hw2]
      refine List.mem_iff_getElem?.mpr ⟨i, ?_⟩
      have hlt : i < w.users.length := by
        rcases Nat.lt_or_ge i w.users.length with h | h
        · exact h
        · rw [List.getElem?_eq_none h] at hi; cases hi
      simp [List.getElem?_set, hlt]
    cases hf : findFirst (.VerifyKeyEquals key.String) w2.users with
    | none =>
      have := findFirst_eq_none.mp hf _ hmem
      simp [Filter.holds] at this
    | some v =>
      obtain ⟨j, -, hupd2⟩ := updateFirst_of_findFirst (.VerifiedAtSet (env.Now w2.tick)) hf
      simp [ValidateEmailVerificationKey, Update, hfault, hupd2]
  · intro old hold huniq hfresh w2 hw2 hfault
    rw [husers] at hw2
    have hgone := updateFirst_old_key_gone huniq hfind hold hfresh hupd
    rw [← hw2] at hgone
    exact (ValidateEmailVerificationKey_absent env w2 old hfault hgone)

/-! ## The verification state machine -/

/-- The store after `Register`: untouched, or extended by one unverified record whose
email and id no stored record has. -/
theorem Register_users (env : Env) (w : World) (name identifier authorizer : String) :
    (Register env w name identifier authorizer).2.users = w.users ∨
    ∃ u, (Register env w name identifier authorizer).2.users = w.users ++ [u] ∧
      u.VerifiedAt = none ∧ (∃ key, env.NewV4 (w.tick + 1) = .ok key ∧
        u.VerifyKey = some key.String) ∧
      (Register env w name identifier authorizer).2.tick = w.tick + 4 ∧
      ∀ x ∈ w.users, x.Email ≠ u.Email ∧ x.ID ≠ u.ID := by
  cases hgen : env.GenerateFromPassword w.tick authorizer DefaultCost with
  | error m => exact Or.inl (by simp [Register, GenerateFromPassword, hgen])
  | ok hash =>
    cases hkey : env.NewV4 (w.tick + 1) with
    | error m => exact Or.inl (by simp [Register, GenerateFromPassword, hgen, NewV4, hkey])
    | ok key =>
      cases henq : env.enqueueFault (w.tick + 2) with
      | some m =>
        exact Or.inl (by simp [Register, GenerateFromPassword, hgen, NewV4, hkey, Enqueue, henq])
      | none =>
        simp only [World.tick] at hgen hkey henq
        cases hfault : env.dbFault (w.log.length + 3) with
        | some m =>
          exact Or.inl (by
            simp [Register, GenerateFromPassword, hgen, NewV4, hkey, Enqueue, henq, CreateOne,
              World.tick, hfault])
        | none =>
          by_cases hdup : ∃ x ∈ w.users,
              x.Email = identifier ∨ x.ID = env.newID (w.log.length + 3)
          · refine Or.inl ?_
            simp [Register, GenerateFromPassword, hgen, NewV4, hkey, Enqueue, henq, CreateOne,
              World.tick, hfault]
            rw [if_pos hdup]
            simp
          · refine Or.inr ⟨⟨env.newID (w.log.length + 3), identifier, name, hash,
              some key.String, none⟩, ?_, rfl, ⟨key, rfl, rfl⟩, ?_, ?_⟩
            · simp [Register, GenerateFromPassword, hgen, NewV4, hkey, Enqueue, henq, CreateOne,
                World.tick, hfault]
              rw [if_neg hdup]
            · simp [Register, GenerateFromPassword, hgen, NewV4, hkey, Enqueue, henq, CreateOne,
                World.tick, hfault]
              rw [if_neg hdup]
              simp
            · intro x hx
              constructor
              · intro h
                exact hdup ⟨x, hx, Or.inl h⟩
              · intro h
                exact hdup ⟨x, hx, Or.inr h⟩

/-- A failed `ChangePassword` leaves the store as it was. -/
theorem ChangePassword_error_users {env : Env} {w : World} {userid prev new : String}
    {e : Error} (hfail : (ChangePassword env w userid prev new).1 = some e) :
    (ChangePassword env w userid prev new).2.users = w.users := by
  cases hgen : env.GenerateFromPassword w.tick new DefaultCost with
  | error m => simp [ChangePassword, GenerateFromPassword, hgen]
  | ok next =>
    cases hfind : findFirst (.IDEquals userid) w.users with
    | none => simp [ChangePassword, GenerateFromPassword, hgen, FindOne, hfind]
    | some user =>
      cases hcmp : env.CompareHashAndPassword user.Pass prev with
      | some m =>
        simp [ChangePassword, GenerateFromPassword, hgen, FindOne, hfind,
          CompareHashAndPassword, hcmp]
      | none =>
        cases hfault : env.dbFault (w.tick + 1 + 1) with
        | some m =>
          simp [ChangePassword, GenerateFromPassword, hgen, FindOne, hfind,
            CompareHashAndPassword, hcmp, Update, hfault]
        | none =>
          cases hupd : updateFirst (.IDEquals userid) (.PassSet next) w.users with
          | none =>
            simp [ChangePassword, GenerateFromPassword, hgen, FindOne, hfind,
              CompareHashAndPassword, hcmp, Update, hfault, hupd]
          | some p =>
            simp [ChangePassword, GenerateFromPassword, hgen, FindOne, hfind,
              CompareHashAndPassword, hcmp, Update, hfault, hupd] at hfail

/-- A failed `ReRequestVerification` leaves the store as it was. -/
theorem ReRequestVerification_error_users {env : Env} {w : World} {identifier : String}
    {e : Error} (hfail : (ReRequestVerification env w identifier).1 = some e) :
    (ReRequestVerification env w identifier).2.users = w.users := by
  cases hkey : env.NewV4 w.tick with
  | error m => simp [ReRequestVerification, NewV4, hkey]
  | ok key =>
    cases hfind : findFirst (.EmailEquals identifier) w.users with
    | none => simp [ReRequestVerification, NewV4, hkey, FindOne, hfind]
    | some user =>
      cases henq : env.enqueueFault (w.tick + 2) with
      | some m => simp [ReRequestVerification, NewV4, hkey, FindOne, hfind, Enqueue, henq]
      | none =>
        simp only [World.tick] at hkey henq
        cases hfault : env.dbFault (w.log.length + 3) with
        | some m =>
          simp [ReRequestVerification, NewV4, hkey, FindOne, hfind, Enqueue, henq, Update,
            World.tick, hfault]
        | none =>
          cases hupd : updateFirst (.EmailEquals identifier) (.VerifyKeySet key.String)
              w.users with
          | none =>
            simp [ReRequestVerification, NewV4, hkey, FindOne, hfind, Enqueue, henq, Update,
              World.tick, hfault, hupd]
          | some p =>
            simp [ReRequestVerification, NewV4, hkey, FindOne, hfind, Enqueue, henq, Update,
              World.tick, hfault, hupd] at hfail

/-- The store after `ValidateEmailVerificationKey`: untouched, or the first record
carrying the token stamped with the current time. -/
theorem ValidateEmailVerificationKey_users (env : Env) (w : World) (key : String) :
    (ValidateEmailVerificationKey env w key).2.users = w.users ∨
    ∃ x, updateFirst (.VerifyKeyEquals key) (.VerifiedAtSet (env.Now w.tick)) w.users
      = some (x, (ValidateEmailVerificationKey env w key).2.users) := by
  cases hfault : env.dbFault w.tick with
  | some m => exact Or.inl (by simp [ValidateEmailVerificationKey, Update, hfault])
  | none =>
    cases hupd : updateFirst (.VerifyKeyEquals key) (.VerifiedAtSet (env.Now w.tick))
        w.users with
    | none => exact Or.inl (by simp [ValidateEmailVerificationKey, Update, hfault, hupd])
    | some p =>
      obtain ⟨x, us1⟩ := p
      exact Or.inr ⟨x, by simp [ValidateEmailVerificationKey, Update, hfault, hupd]⟩

/-- How one request changes the store: not at all, by appending one unverified record
(`Register`), or by one in-place update, which assigns `verifiedAt` only for
`ValidateEmailVerificationKey` and only on a record carrying the submitted token. -/
theorem step_users (env : Env) (w : World) (op : Op) :
    (step env w op).users = w.users ∨
    (∃ u key, (step env w op).users = w.users ++ [u] ∧ u.VerifiedAt = none ∧
      env.NewV4 (w.tick + 1) = .ok key ∧ u.VerifyKey = some key.String ∧
      (step env w op).tick = w.tick + 4 ∧
      ∀ x ∈ w.users, x.Email ≠ u.Email ∧ x.ID ≠ u.ID) ∨
    (∃ f s x, updateFirst f s w.users = some (x, (step env w op).users) ∧
      ((∃ v, s = .PassSet v) ∨
        (∃ key, env.NewV4 w.tick = .ok key ∧ s = .VerifyKeySet key.String) ∨
        (∃ key t, op = .ValidateEmailVerificationKey key ∧ f = .VerifyKeyEquals key ∧
          s = .VerifiedAtSet t))) := by
  cases op with
  | Register name identifier authorizer =>
    simp only [step]
    rcases Register_users env w name identifier authorizer with
      h | ⟨u, h, hu, ⟨key, hkey, huk⟩, ht, hx⟩
    · exact Or.inl h
    · exact Or.inr (Or.inl ⟨u, key, h, hu, hkey, huk, ht, hx⟩)
  | Login identifier authorizer =>
    exact Or.inl (Login_users env w identifier authorizer).1
  | ChangePassword userid prev new =>
    simp only [step]
    cases hres : (ChangePassword env w userid prev new).1 with
    | some e => exact Or.inl (ChangePassword_error_users hres)
    | none =>
      obtain ⟨next, _, x, us1, _, _, _, hupd, husers, _⟩ := ChangePassword_success hres
      rw [husers]
      exact Or.inr (Or.inr ⟨_, _, x, hupd, Or.inl ⟨next, rfl⟩⟩)
  | ReRequestVerification identifier =>
    simp only [step]
    cases hres : (ReRequestVerification env w identifier).1 with
    | some e => exact Or.inl (ReRequestVerification_error_users hres)
    | none =>
      obtain ⟨key, _, x, us1, hkey, _, hupd, husers, _⟩ := ReRequestVerification_ok hres
      rw [husers]
      exact Or.inr (Or.inr ⟨_, _, x, hupd, Or.inr (Or.inl ⟨key, hkey, rfl⟩)⟩)
  | ValidateEmailVerificationKey key =>
    simp only [step]
    rcases ValidateEmailVerificationKey_users env w key with h | ⟨x, h⟩
    · exact Or.inl h
    · exact Or.inr (Or.inr ⟨_, _, x, h, Or.inr (Or.inr ⟨key, _, rfl, rfl, rfl⟩)⟩)

/-- C10: in every world, hence in every reachable one, and for every request, a stored
record stays at its place with its id; if it was verified it still is; it turns from
unverified to verified only when the request is a `ValidateEmailVerificationKey` whose
token equals the record's current `verifyKey`; and `Register`, `Login`,
`ChangePassword` and `ReRequestVerification` leave its `verifiedAt` as it was. -/
theorem verification_state_machine (env : Env) (w : World) (op : Op) (i : Nat)
    (r : UserModel) (hr : w.users[i]? = some r) :
    ∃ r1, (step env w op).users[i]? = some r1 ∧ r1.ID = r.ID ∧
      (r.VerifiedAt ≠ none → r1.VerifiedAt ≠ none) ∧
      (r.VerifiedAt = none → r1.VerifiedAt ≠ none →
        ∃ key, op = .ValidateEmailVerificationKey key ∧ r.VerifyKey = some key) ∧
      ((∀ key, op ≠ .ValidateEmailVerificationKey key) → r1.VerifiedAt = r.VerifiedAt) := by
  have hsame : ∀ us : List UserModel, us[i]? = some r →
      ∃ r1, us[i]? = some r1 ∧ r1.ID = r.ID ∧
        (r.VerifiedAt ≠ none → r1.VerifiedAt ≠ none) ∧
        (r.VerifiedAt = none → r1.VerifiedAt ≠ none →
          ∃ key, op = .ValidateEmailVerificationKey key ∧ r.VerifyKey = some key) ∧
        ((∀ key, op ≠ .ValidateEmailVerificationKey key) → r1.VerifiedAt = r.VerifiedAt) :=
    fun us h => ⟨r, h, rfl, id, fun h0 h1 => absurd h0 h1, fun _ => rfl⟩
  rcases step_users env w op with h | ⟨u, -, h, -⟩ | ⟨f, s, x, hupd, hs⟩
  · rw [h]; exact hsame _ hr
  · rw [h]
    apply hsame
    have hlt : i < w.users.length := by
      rcases Nat.lt_or_ge i w.users.length with h | h
      · exact h
      · rw [List.getElem?_eq_none h] at hr; cases hr
    rw [List.getElem?_append_left hlt]
    exact hr
  · rcases updateFirst_getElem? hupd i r hr with h | ⟨hholds, h⟩
    · exact hsame _ h
    · refine ⟨s.apply r, h, ?_⟩
      rcases hs with ⟨v, rfl⟩ | ⟨v, -, rfl⟩ | ⟨key, t, rfl, rfl, rfl⟩
      · exact ⟨rfl, id, fun h0 h1 => absurd h0 h1, fun _ => rfl⟩
      · exact ⟨rfl, id, fun h0 h1 => absurd h0 h1, fun _ => rfl⟩
      · refine ⟨rfl, fun _ => by simp [SetParam.apply], fun _ _ => ⟨key, rfl, ?_⟩,
          fun hne => absurd rfl (hne key)⟩
        simpa [Filter.holds] using hholds

/-! ## The clock of collaborator calls -/

theorem GenerateFromPassword_tick (env : Env) (w : World) (pw : String) (c : Nat) :
    (GenerateFromPassword env w pw c).2.tick = w.tick + 1 := by
  unfold GenerateFromPassword
  split <;> simp

theorem NewV4_tick (env : Env) (w : World) : (NewV4 env w).2.tick = w.tick + 1 := by
  unfold NewV4
  split <;> simp

theorem Enqueue_tick (env : Env) (w : World) (a b c d e : String) :
    (Enqueue env w a b c d e).2.tick = w.tick + 1 := by
  unfold Enqueue
  split <;> simp [World.tick]

theorem FindOne_tick (w : World) (f : Filter) : (FindOne w f).2.tick = w.tick + 1 := by
  unfold FindOne
  split <;> simp

theorem CreateOne_tick (env : Env) (w : World) (a b c d : String) :
    (CreateOne env w a b c d).2.tick = w.tick + 1 := by
  unfold CreateOne
  split
  · simp
  · simp only []
    split <;> simp [World.tick]

theorem Update_tick (env : Env) (w : World) (f : Filter) (s : SetParam) :
    (Update env w f s).2.tick = w.tick + 1 := by
  unfold Update
  split
  · simp
  · split <;> simp [World.tick]

/-- Serving a request makes at least one collaborator call. -/
theorem step_tick (env : Env) (w : World) (op : Op) : w.tick < (step env w op).tick := by
  cases op with
  | Register name identifier authorizer =>
    simp only [step, Register]
    have h1 := GenerateFromPassword_tick env w authorizer DefaultCost
    generalize GenerateFromPassword env w authorizer DefaultCost = p1 at h1 ⊢
    rcases p1 with ⟨_ | hash, w1⟩
    · simp only [] at h1 ⊢; omega
    · simp only [] at h1 ⊢
      have h2 := NewV4_tick env w1
      generalize NewV4 env w1 = p2 at h2 ⊢
      rcases p2 with ⟨_ | key, w2⟩
      · simp only [] at h2 ⊢; omega
      · simp only [] at h2 ⊢
        have h3 := Enqueue_tick env w2 name identifier "Please verify your email address"
          (TemplateID "verify") key.String
        generalize Enqueue env w2 name identifier "Please verify your email address"
          (TemplateID "verify") key.String = p3 at h3 ⊢
        rcases p3 with ⟨_ | e, w3⟩
        · simp only [] at h3 ⊢
          have h4 := CreateOne_tick env w3 identifier name hash key.String
          generalize CreateOne env w3 identifier name hash key.String = p4 at h4 ⊢
          rcases p4 with ⟨_ | u, w4⟩ <;>
            simp only [] at h4 ⊢ <;> omega
        · simp only [] at h3 ⊢; omega
  | Login identifier authorizer =>
    simp only [step, Login]
    have h1 := FindOne_tick w (.EmailEquals identifier)
    generalize FindOne w (.EmailEquals identifier) = p5 at h1 ⊢
    rcases p5 with ⟨_ | user, w1⟩
    · simp only [] at h1 ⊢
      split <;> simp only [] <;> omega
    · simp only [] at h1 ⊢
      split
      · simp only []; omega
      · split <;> simp only [] <;> omega
  | ChangePassword userid prev new =>
    simp only [step, ChangePassword]
    have h1 := GenerateFromPassword_tick env w new DefaultCost
    generalize GenerateFromPassword env w new DefaultCost = p6 at h1 ⊢
    rcases p6 with ⟨_ | next, w1⟩
    · simp only [] at h1 ⊢; omega
    · simp only [] at h1 ⊢
      have h2 := FindOne_tick w1 (.IDEquals userid)
      generalize FindOne w1 (.IDEquals userid) = p7 at h2 ⊢
      rcases p7 with ⟨_ | user, w2⟩
      · simp only [] at h2 ⊢
        split <;> simp only [] <;> omega
      · simp only [] at h2 ⊢
        split
        · simp only []; omega
        · have h3 := Update_tick env w2 (.IDEquals userid) (.PassSet next)
          generalize Update env w2 (.IDEquals userid) (.PassSet next) = p8 at h3 ⊢
          rcases p8 with ⟨_ | u, w3⟩ <;>
            simp only [] at h3 ⊢ <;> omega
  | ReRequestVerification identifier =>
    simp only [step, ReRequestVerification]
    have h1 := NewV4_tick env w
    generalize NewV4 env w = p9 at h1 ⊢
    rcases p9 with ⟨_ | key, w1⟩
    · simp only [] at h1 ⊢; omega
    · simp only [] at h1 ⊢
      have h2 := FindOne_tick w1 (.EmailEquals identifier)
      generalize FindOne w1 (.EmailEquals identifier) = p10 at h2 ⊢
      rcases p10 with ⟨_ | user, w2⟩
      · simp only [] at h2 ⊢; omega
      · simp only [] at h2 ⊢
        have h3 := Enqueue_tick env w2 user.Name identifier "Please verify your email address"
          (TemplateID "verify") key.String
        generalize Enqueue env w2 user.Name identifier "Please verify your email address"
          (TemplateID "verify") key.String = p11 at h3 ⊢
        rcases p11 with ⟨_ | e, w3⟩
        · simp only [] at h3 ⊢
          have h4 := Update_tick env w3 (.EmailEquals identifier) (.VerifyKeySet key.String)
          generalize Update env w3 (.EmailEquals identifier) (.VerifyKeySet key.String) = p12 at h4 ⊢
          rcases p12 with ⟨_ | u, w4⟩ <;> simp only [] at h4 ⊢ <;> omega
        · simp only [] at h3 ⊢; omega
  | ValidateEmailVerificationKey key =>
    simp only [step, ValidateEmailVerificationKey]
    have h1 := Update_tick env w (.VerifyKeyEquals key) (.VerifiedAtSet (env.Now w.tick))
    generalize Update env w (.VerifyKeyEquals key) (.VerifiedAtSet (env.Now w.tick)) = p13 at h1 ⊢
    rcases p13 with ⟨_ | u, w1⟩
    · simp only [] at h1 ⊢
      split <;> simp only [] <;> omega
    · simp only [] at h1 ⊢; omega

/-! ## Invariants of reachable worlds -/

/-- The records after an update are old records or updated versions of old records. -/
theorem updateFirst_mem {f : Filter} {s : SetParam} {us us1 : List UserModel}
    {x : UserModel} (h : updateFirst f s us = some (x, us1)) :
    ∀ b ∈ us1, b ∈ us ∨ ∃ u ∈ us, b = s.apply u := by
  intro b hb
  obtain ⟨i, hi⟩ := List.mem_iff_getElem?.mp hb
  have hlen := updateFirst_length h
  have hlt : i < us.length := by
    rcases Nat.lt_or_ge i us1.length with h1 | h1
    · omega
    · rw [List.getElem?_eq_none h1] at hi; cases hi
  rcases updateFirst_getElem? h i us[i] (List.getElem?_eq_getElem hlt) with h1 | ⟨-, h1⟩
  · rw [hi] at h1
    cases h1
    exact Or.inl (List.getElem_mem hlt)
  · rw [hi] at h1
    cases h1
    exact Or.inr ⟨us[i], List.getElem_mem hlt, rfl⟩

/-- An update leaves every field alone that its assignment leaves alone. -/
theorem updateFirst_map {α : Type} {f : Filter} {s : SetParam} {us us1 : List UserModel}
    {x : UserModel} (g : UserModel → α) (hg : ∀ u, g (s.apply u) = g u)
    (h : updateFirst f s us = some (x, us1)) : us1.map g = us.map g := by
  induction us generalizing us1 with
  | nil => simp [updateFirst] at h
  | cons u us ih =>
    unfold updateFirst at h
    by_cases hu : f.holds u
    · simp only [hu, if_true, Option.some.injEq, Prod.mk.injEq] at h
      obtain ⟨-, rfl⟩ := h
      simp [hg]
    · simp only [hu, Bool.false_eq_true, if_false] at h
      cases hrec : updateFirst f s us with
      | none => simp [hrec] at h
      | some p =>
        obtain ⟨y, us2⟩ := p
        simp only [hrec, Option.some.injEq, Prod.mk.injEq] at h
        obtain ⟨rfl, rfl⟩ := h
        simp [ih hrec]

theorem StoreInvariant_iff_map (us : List UserModel) :
    StoreInvariant us ↔
      (us.map (fun u => (u.Email, u.ID))).Pairwise (fun a b => a.1 ≠ b.1 ∧ a.2 ≠ b.2) := by
  unfold StoreInvariant
  rw [List.pairwise_map]

theorem KeysUnique_iff_map (us : List UserModel) :
    KeysUnique us ↔
      (us.map (fun u => u.VerifyKey)).Pairwise (fun a b => a = none ∨ a ≠ b) := by
  unfold KeysUnique
  rw [List.pairwise_map]

/-- No update of this module touches an email or an id. -/
theorem SetParam.apply_identity (s : SetParam) (u : UserModel) :
    (fun u : UserModel => (u.Email, u.ID)) (s.apply u) = (u.Email, u.ID) := by
  cases s <;> rfl

/-- Emails and ids stay pairwise distinct through every request. -/
theorem step_StoreInvariant (env : Env) (w : World) (op : Op)
    (h : StoreInvariant w.users) : StoreInvariant (step env w op).users := by
  rcases step_users env w op with hs | ⟨u, key, hs, -, -, -, -, hfresh⟩ | ⟨f, s, x, hupd, -⟩
  · rw [hs]; exact h
  · rw [hs]
    unfold StoreInvariant at h ⊢
    rw [List.pairwise_append]
    refine ⟨h, by simp, ?_⟩
    intro a ha b hb
    rw [List.mem_singleton] at hb
    subst hb
    exact hfresh a ha
  · rw [StoreInvariant_iff_map] at h ⊢
    rw [updateFirst_map _ (SetParam.apply_identity s) hupd]
    exact h

/-- In every reachable world no two records share an email or an id. -/
theorem Reachable.storeInvariant {env : Env} {w : World} (h : Reachable env w) :
    StoreInvariant w.users := by
  induction h with
  | init => exact List.Pairwise.nil
  | next w op _ ih => exact step_StoreInvariant env w op ih

/-- With distinct emails and ids, every stored record is the one the store finds under
its id and the one it finds under its email. -/
theorem StoreInvariant.findFirst {us : List UserModel} (h : StoreInvariant us)
    {r : UserModel} (hr : r ∈ us) :
    findFirst (.IDEquals r.ID) us = some r ∧ findFirst (.EmailEquals r.Email) us = some r := by
  induction us with
  | nil => cases hr
  | cons u us ih =>
    unfold StoreInvariant at h
    rw [List.pairwise_cons] at h
    rw [findFirst_cons, findFirst_cons]
    rcases List.mem_cons.mp hr with rfl | hr
    · simp [Filter.holds]
    · have hne := h.1 r hr
      have h1 : (Filter.IDEquals r.ID).holds u = false := by simpa [Filter.holds] using hne.2
      have h2 : (Filter.EmailEquals r.Email).holds u = false := by
        simpa [Filter.holds] using hne.1
      rw [h1, h2]
      exact ih h.2 hr

/-- Overwriting a key by one that no record carries keeps the keys unique. -/
theorem updateFirst_KeysUnique {f : Filter} {new : String} {us us1 : List UserModel}
    {x : UserModel} (huniq : KeysUnique us) (hfresh : ∀ u ∈ us, u.VerifyKey ≠ some new)
    (hupd : updateFirst f (.VerifyKeySet new) us = some (x, us1)) : KeysUnique us1 := by
  induction us generalizing us1 with
  | nil => simp [updateFirst] at hupd
  | cons u us ih =>
    unfold KeysUnique at huniq
    rw [List.pairwise_cons] at huniq
    obtain ⟨hhead, htail⟩ := huniq
    unfold updateFirst at hupd
    by_cases hu : f.holds u
    · simp only [hu, if_true, Option.some.injEq, Prod.mk.injEq] at hupd
      obtain ⟨-, rfl⟩ := hupd
      unfold KeysUnique
      rw [List.pairwise_cons]
      refine ⟨fun b hb => Or.inr ?_, htail⟩
      intro hk
      exact hfresh b (List.mem_cons_of_mem _ hb) hk.symm
    · simp only [hu, Bool.false_eq_true, if_false] at hupd
      cases hrec : updateFirst f (.VerifyKeySet new) us with
      | none => simp [hrec] at hupd
      | some p =>
        obtain ⟨y, us2⟩ := p
        simp only [hrec, Option.some.injEq, Prod.mk.injEq] at hupd
        obtain ⟨rfl, rfl⟩ := hupd
        have htail2 : KeysUnique us2 :=
          ih htail (fun v hv => hfresh v (List.mem_cons_of_mem _ hv)) hrec
        unfold KeysUnique at htail2 ⊢
        rw [List.pairwise_cons]
        refine ⟨fun b hb => ?_, htail2⟩
        rcases updateFirst_mem hrec b hb with hb | ⟨v, -, rfl⟩
        · exact hhead b hb
        · refine Or.inr ?_
          intro hk
          exact hfresh u (List.mem_cons_self _ _) hk

/-- A token generated now or later is carried by no stored record, when tokens are
distinct and every stored key was generated earlier. -/
theorem KeyProvenance.fresh {env : Env} {w : World} (hd : TokensDistinct env)
    (hp : KeyProvenance env w) (k : Nat) (key : UUID) (hkey : env.NewV4 (w.tick + k) = .ok key) :
    ∀ u ∈ w.users, u.VerifyKey ≠ some key.String := by
  intro u hu huk
  obtain ⟨t, key0, ht, hkey0, hsame⟩ := hp u hu _ huk
  have := hd t (w.tick + k) key0 key hkey0 hkey hsame
  omega

/-- Keys stay unique, and stay texts of earlier tokens, through every request, when the
generator produces distinct tokens. -/
theorem step_keys (env : Env) (w : World) (op : Op) (hd : TokensDistinct env)
    (huniq : KeysUnique w.users) (hp : KeyProvenance env w) :
    KeysUnique (step env w op).users ∧ KeyProvenance env (step env w op) := by
  have htick := step_tick env w op
  have hold : ∀ u ∈ w.users, ∀ k, u.VerifyKey = some k →
      ∃ t key, t < (step env w op).tick ∧ env.NewV4 t = .ok key ∧ key.String = k := by
    intro u hu k hk
    obtain ⟨t, key, ht, hkey, hs⟩ := hp u hu k hk
    exact ⟨t, key, by omega, hkey, hs⟩
  rcases step_users env w op with hs | ⟨u, key, hs, -, hkey, huk, ht, -⟩ | ⟨f, s, x, hupd, hcase⟩
  · refine ⟨by rw [hs]; exact huniq, ?_⟩
    intro u hu
    rw [hs] at hu
    exact hold u hu
  · have hfresh := hp.fresh hd 1 key hkey
    constructor
    · rw [hs]
      unfold KeysUnique at huniq ⊢
      rw [List.pairwise_append]
      refine ⟨huniq, by simp, ?_⟩
      intro a ha b hb
      rw [List.mem_singleton] at hb
      subst hb
      refine Or.inr ?_
      rw [huk]
      exact hfresh a ha
    · intro v hv k hk
      rw [hs] at hv
      rcases List.mem_append.mp hv with hv | hv
      · exact hold v hv k hk
      · rw [List.mem_singleton] at hv
        subst hv
        rw [huk] at hk
        cases hk
        exact ⟨w.tick + 1, key, by omega, hkey, rfl⟩
  · have hkeep : ∀ (hs : ∀ u, (fun u : UserModel => u.VerifyKey) (s.apply u) = u.VerifyKey),
        KeysUnique (step env w op).users ∧ KeyProvenance env (step env w op) := by
      intro hs
      constructor
      · rw [KeysUnique_iff_map] at huniq ⊢
        rw [updateFirst_map _ hs hupd]
        exact huniq
      · intro v hv k hk
        rcases updateFirst_mem hupd v hv with hv | ⟨v0, hv0, rfl⟩
        · exact hold v hv k hk
        · exact hold v0 hv0 k (by rw [← hs v0]; exact hk)
    rcases hcase with ⟨v, rfl⟩ | ⟨key, hkey, rfl⟩ | ⟨key, t, -, -, rfl⟩
    · exact hkeep (fun _ => rfl)
    · have hfresh := hp.fresh hd 0 key hkey
      refine ⟨updateFirst_KeysUnique huniq hfresh hupd, ?_⟩
      intro v hv k hk
      rcases updateFirst_mem hupd v hv with hv | ⟨v0, hv0, rfl⟩
      · exact hold v hv k hk
      · simp only [SetParam.apply, Option.some.injEq] at hk
        subst hk
        exact ⟨w.tick, key, htick, hkey, rfl⟩
    · exact hkeep (fun _ => rfl)

/-- In every reachable world keys are unique, and a token generated now differs from
every stored key, when the generator produces distinct tokens. -/
theorem Reachable.keys {env : Env} {w : World} (hd : TokensDistinct env)
    (h : Reachable env w) :
    KeysUnique w.users ∧
    ∀ key, env.NewV4 w.tick = .ok key → ∀ u ∈ w.users, u.VerifyKey ≠ some key.String := by
  have hboth : KeysUnique w.users ∧ KeyProvenance env w := by
    induction h with
    | init => exact ⟨List.Pairwise.nil, fun u hu => by cases hu⟩
    | next w op _ ih => exact step_keys env w op hd ih.1 ih.2
  exact ⟨hboth.1, fun key hkey => hboth.2.fresh hd 0 key hkey⟩

/-- The contract `TokensDistinct` can be met: a generator that hands out two different
tokens and then reports exhaustion. -/
theorem TokensDistinct_satisfiable :
    ∃ env : Env, TokensDistinct env ∧ (∃ key, env.NewV4 0 = .ok key) := by
  refine ⟨{ goodEnv with
    NewV4 := fun t => if t < 2 then .ok ⟨[t]⟩ else .error "uuid: exhausted" }, ?_, ⟨⟨[0]⟩, rfl⟩⟩
  intro s t a b ha hb hab
  simp only at ha hb
  by_cases hs : s < 2 <;> by_cases ht : t < 2 <;> simp [hs, ht] at ha hb
  subst ha hb
  have hs2 : s = 0 ∨ s = 1 := by omega
  have ht2 : t = 0 ∨ t = 1 := by omega
  rcases hs2 with rfl | rfl <;> rcases ht2 with rfl | rfl <;> first
    | rfl
    | exact absurd hab (by decide)

/-! ## Instances on concrete stores -/

/-- The hasher of `testEnv` is correct, whatever fails. -/
theorem testEnv_correct (a b c d : Bool) : CorrectHasher (testEnv a b c d) := by
  intro t p cost h hgen q
  cases a <;> simp [testEnv] at hgen ⊢
  subst hgen
  rfl

theorem Login_unverified_witness :
    findFirst (.EmailEquals "a@x.com") twoUsers.users = some alice ∧
    alice.VerifiedAt = none ∧
    (Login goodEnv twoUsers "a@x.com" "pw1").1 = .error .ErrUserNotVerified ∧
    (Login goodEnv twoUsers "a@x.com" "pw1").2.users = twoUsers.users :=
  ⟨by decide, by decide,
    Login_unverified goodEnv twoUsers "a@x.com" "pw1" alice (by decide) (by decide)⟩

theorem Login_result_witness :
    (Login goodEnv twoUsers "b@x.com" "pw2").1 = .ok bob ∧
    (Login goodEnv twoUsers "b@x.com" "pw1").1
      = .error (.bcrypt "hashedPassword is not the hash of the given password") ∧
    (Login goodEnv twoUsers "c@x.com" "pw1").1 = .error .ErrUserNotFound :=
  ⟨(Login_result goodEnv twoUsers "b@x.com" "pw2").1 bob (by decide) (by decide) (by decide),
   (Login_result goodEnv twoUsers "b@x.com" "pw1").2.1 bob _ (by decide) (by decide)
     (by decide),
   (Login_result goodEnv twoUsers "c@x.com" "pw1").2.2 (by decide)⟩

theorem ChangePassword_mismatch_witness :
    findFirst (.IDEquals "b2") twoUsers.users = some bob ∧
    goodEnv.CompareHashAndPassword bob.Pass "pw1"
      = some "hashedPassword is not the hash of the given password" ∧
    (ChangePassword goodEnv twoUsers "b2" "pw1" "pw3").1
      = some (.bcrypt "hashedPassword is not the hash of the given password") ∧
    (ChangePassword goodEnv twoUsers "b2" "pw1" "pw3").2.users = twoUsers.users :=
  have h := ChangePassword_mismatch goodEnv twoUsers "b2" "pw1" "pw3" bob
    "hashedPassword is not the hash of the given password" (by decide) (by decide)
  ⟨by decide, by decide, h.2.1 "pw3" (by decide), h.2.2.1⟩

theorem ChangePassword_then_Login_witness :
    (ChangePassword goodEnv twoUsers "b2" "pw2" "pw3").1 = none ∧
    (Login goodEnv (ChangePassword goodEnv twoUsers "b2" "pw2" "pw3").2 "b@x.com" "pw3").1
      = .ok { bob with Pass := "pw3" } ∧
    ∃ m, (Login goodEnv (ChangePassword goodEnv twoUsers "b2" "pw2" "pw3").2 "b@x.com"
      "pw2").1 = .error (.bcrypt m) := by
  obtain ⟨next, hnext, -, -, hnew, hold⟩ :=
    ChangePassword_then_Login goodEnv twoUsers "b2" "pw2" "pw3" bob
      (testEnv_correct false false false false) (by decide) (by decide) (by decide) (by decide)
  have hn : next = "pw3" := by
    simp [goodEnv, testEnv] at hnext
    exact hnext.symm
  subst hn
  exact ⟨by decide, hnew, hold (by decide)⟩

/-- C4 as stated fails when the new password equals the previous one: with a correct
hasher, `ChangePassword` on the verified record `bob` with previous and new password
`pw2` succeeds, and the subsequent `Login` with the old password `pw2` succeeds too. -/
theorem ChangePassword_same_password_counterexample :
    CorrectHasher goodEnv ∧
    findFirst (.IDEquals "b2") twoUsers.users = some bob ∧
    findFirst (.EmailEquals bob.Email) twoUsers.users = some bob ∧
    bob.VerifiedAt ≠ none ∧
    (ChangePassword goodEnv twoUsers "b2" "pw2" "pw2").1 = none ∧
    (Login goodEnv (ChangePassword goodEnv twoUsers "b2" "pw2" "pw2").2 "b@x.com" "pw2").1
      = .ok bob :=
  ⟨testEnv_correct false false false false, by decide, by decide, by decide, by decide,
    by decide⟩

theorem Register_failure_witness :
    (Register (testEnv true false false false) twoUsers "Carol" "c@x.com" "pw").1
      = .error (.bcrypt "bcrypt: failure") ∧
    (Register (testEnv false true false false) twoUsers "Carol" "c@x.com" "pw").1
      = .error (.uuid "uuid: failure") ∧
    (Register (testEnv false false true false) twoUsers "Carol" "c@x.com" "pw").1
      = .error (.mailworker "queue unavailable") ∧
    (Register (testEnv false false true false) twoUsers "Carol" "c@x.com" "pw").2.users
      = twoUsers.users ∧
    (Register (testEnv false false true false) twoUsers "Carol" "c@x.com" "pw").2.log
      = twoUsers.log ++ [.GenerateFromPassword true, .NewV4 true,
          .Enqueue (verifyMail "Carol" "c@x.com" ⟨List.replicate 16 1⟩) false] :=
  have h1 := (Register_failure (testEnv true false false false) twoUsers "Carol" "c@x.com"
    "pw").1 "bcrypt: failure" (by decide)
  have h2 := (Register_failure (testEnv false true false false) twoUsers "Carol" "c@x.com"
    "pw").2.1 "pw" "uuid: failure" (by decide) (by decide)
  have h3 := (Register_failure (testEnv false false true false) twoUsers "Carol" "c@x.com"
    "pw").2.2.1 "pw" ⟨List.replicate 16 1⟩ "queue unavailable" (by decide) (by decide)
    (by decide)
  ⟨h1.1, h2.1, h3.1, h3.2.1, h3.2.2.2⟩

theorem Register_success_witness :
    (Register goodEnv twoUsers "Carol" "c@x.com" "pw").1
      = .ok { ID := "uiii", Email := "c@x.com", Name := "Carol", Pass := "pw",
              VerifyKey := some "01010101-0101-0101-0101-010101010101",
              VerifiedAt := none } ∧
    ∃ (hash : String) (key : UUID),
      (Register goodEnv twoUsers "Carol" "c@x.com" "pw").2.users
        = twoUsers.users ++
          [{ ID := "uiii", Email := "c@x.com", Name := "Carol", Pass := hash,
             VerifyKey := some key.String, VerifiedAt := none }] ∧
      (Register goodEnv twoUsers "Carol" "c@x.com" "pw").2.queue
        = twoUsers.queue ++ [verifyMail "Carol" "c@x.com" key] := by
  have hres : (Register goodEnv twoUsers "Carol" "c@x.com" "pw").1
      = .ok { ID := "uiii", Email := "c@x.com", Name := "Carol", Pass := "pw",
              VerifyKey := some "01010101-0101-0101-0101-010101010101",
              VerifiedAt := none } := by decide
  obtain ⟨hash, key, -, -, huser, -, husers, hqueue, -, -⟩ :=
    Register_success goodEnv twoUsers "Carol" "c@x.com" "pw" _ hres
  refine ⟨hres, hash, key, ?_, hqueue⟩
  rw [husers, huser]
  rfl

theorem ValidateEmailVerificationKey_result_witness :
    (ValidateEmailVerificationKey goodEnv twoUsers "k9").1 = (false, none) ∧
    (ValidateEmailVerificationKey goodEnv twoUsers "k9").2.users = twoUsers.users ∧
    (ValidateEmailVerificationKey goodEnv twoUsers "k1").1 = (true, none) ∧
    (ValidateEmailVerificationKey goodEnv
      (ValidateEmailVerificationKey goodEnv twoUsers "k1").2 "k1").1 = (true, none) ∧
    (ValidateEmailVerificationKey (testEnv false false false true) twoUsers "k1").1
      = (false, some (.db "connection refused")) :=
  have h1 := (ValidateEmailVerificationKey_result goodEnv twoUsers "k9").1 (by decide)
    (by decide)
  have h2 := (ValidateEmailVerificationKey_result goodEnv twoUsers "k1").2.1 alice
    (by decide) (by decide)
  have h3 := (ValidateEmailVerificationKey_result (testEnv false false false true) twoUsers
    "k1").2.2 "connection refused" (by decide)
  ⟨h1.1, h1.2, h2.1, h2.2.2 (by decide), h3.1⟩

theorem ReRequestVerification_success_witness :
    findFirst (.EmailEquals "a@x.com") twoUsers.users = some alice ∧
    (ReRequestVerification goodEnv twoUsers "a@x.com").1 = none ∧
    (ReRequestVerification goodEnv twoUsers "a@x.com").2.users
      = [{ alice with VerifyKey := some "00000000-0000-0000-0000-000000000000" }, bob] ∧
    (ValidateEmailVerificationKey goodEnv
      (ReRequestVerification goodEnv twoUsers "a@x.com").2
      "00000000-0000-0000-0000-000000000000").1 = (true, none) ∧
    alice.VerifyKey = some "k1" ∧ KeysUnique twoUsers.users ∧
    (ValidateEmailVerificationKey goodEnv
      (ReRequestVerification goodEnv twoUsers "a@x.com").2 "k1").1 = (false, none) := by
  obtain ⟨key, hkey, -, -, hnew, hold⟩ :=
    ReRequestVerification_success goodEnv twoUsers "a@x.com" alice (by decide) (by decide)
  have hk : key = ⟨List.replicate 16 0⟩ := by
    simp [goodEnv, testEnv] at hkey
    exact hkey.symm
  subst hk
  exact ⟨by decide, by decide, by decide, hnew _ rfl (by decide), by decide, by decide,
    (hold "k1" (by decide) (by decide) (by decide) _ rfl (by decide)).1⟩

/-- C8 as stated fails on two stores. In `sharedKey` a second record carries the key of
`alice`: after a successful `ReRequestVerification` for her email the old key `k1` is
still accepted. In `repeatedKey` keys are unique but the generator hands out the old key
of the record again: the old key is still accepted there too. -/
theorem ReRequestVerification_old_key_counterexample :
    (findFirst (.EmailEquals "a@x.com") sharedKey.users = some alice ∧
      alice.VerifyKey = some "k1" ∧
      (ReRequestVerification goodEnv sharedKey "a@x.com").1 = none ∧
      (ValidateEmailVerificationKey goodEnv
        (ReRequestVerification goodEnv sharedKey "a@x.com").2 "k1").1 = (true, none)) ∧
    (findFirst (.EmailEquals "a@x.com") repeatedKey.users
        = some { alice with VerifyKey := some "00000000-0000-0000-0000-000000000000" } ∧
      KeysUnique repeatedKey.users ∧
      (ReRequestVerification goodEnv repeatedKey "a@x.com").1 = none ∧
      (ValidateEmailVerificationKey goodEnv
        (ReRequestVerification goodEnv repeatedKey "a@x.com").2
        "00000000-0000-0000-0000-000000000000").1 = (true, none)) :=
  ⟨⟨by decide, by decide, by decide, by decide⟩,
    ⟨by decide, by decide, by decide, by decide⟩⟩

theorem ReRequestVerification_failure_witness :
    (ReRequestVerification (testEnv false true false false) twoUsers "a@x.com").1
      = some (.uuid "uuid: failure") ∧
    (ReRequestVerification goodEnv twoUsers "c@x.com").1 = some .ErrNotFound ∧
    (ReRequestVerification goodEnv twoUsers "c@x.com").2.queue = twoUsers.queue ∧
    (ReRequestVerification (testEnv false false true false) twoUsers "a@x.com").1
      = some (.mailworker "queue unavailable") ∧
    (ReRequestVerification (testEnv false false true false) twoUsers "a@x.com").2.users
      = twoUsers.users :=
  have h1 := (ReRequestVerification_failure (testEnv false true false false) twoUsers
    "a@x.com").1 "uuid: failure" (by decide)
  have h2 := (ReRequestVerification_failure goodEnv twoUsers "c@x.com").2.1
    ⟨List.replicate 16 0⟩ (by decide) (by decide)
  have h3 := (ReRequestVerification_failure (testEnv false false true false) twoUsers
    "a@x.com").2.2 ⟨List.replicate 16 0⟩ alice "queue unavailable" (by decide) (by decide)
    (by decide)
  ⟨h1.1, h2.1, h2.2.2.2.1, h3.1, h3.2.1⟩

theorem verification_state_machine_witness :
    twoUsers.users[0]? = some alice ∧
    ∃ r1, (step goodEnv twoUsers (.ValidateEmailVerificationKey "k1")).users[0]? = some r1 ∧
      r1.ID = alice.ID ∧
      (alice.VerifiedAt = none → r1.VerifiedAt ≠ none →
        ∃ key, Op.ValidateEmailVerificationKey "k1" = .ValidateEmailVerificationKey key ∧
          alice.VerifyKey = some key) := by
  obtain ⟨r1, h1, h2, -, h3, -⟩ :=
    verification_state_machine goodEnv twoUsers (.ValidateEmailVerificationKey "k1") 0 alice
      (by decide)
  exact ⟨by decide, r1, h1, h2, h3⟩
end Auth
